import Mathlib

/-!
Verification of the XMP metadata-embedding core of the danbooru fav downloader.

The development shallowly embeds the Python functions `_build_xmp_packet`,
`_embed_xmp_to_jpeg`, `_embed_xmp_to_png`, `_embed_xmp_to_webp` (from
`danbooru_fav_downloader.py`) and `extract_xmp_description` (from
`___XXX_extract_xmp_to_prompt.py`).

Conventions:
- A file's content is a `List Nat` of byte values; Python slices `data[a:b]`
  become `slice data a b = (data.drop a).take (b - a)`, which is total exactly
  like Python slicing.
- Text is `List Char`; `String.data` converts the source's literals.
- Loops that rewrite a scan position `pos` over `data` are embedded as
  recursion over the remaining suffix `data.drop pos`; the recursion carries a
  fuel argument (always called with `length + 1`, which is more than enough,
  see the fuel-irrelevance lemmas) so that every definition reduces inside the
  kernel.
- Python's `int.to_bytes` raises `OverflowError` when the value does not fit;
  the embedders model that exceptional exit with an explicit `error` result
  (the exception happens before any write, so no file is modified).
-/

namespace Danbooru

/-- Big-endian byte-list decoding, the model of `int.from_bytes(b, "big")`.
Like the Python function it accepts any length, including zero. -/
def beBytes (l : List Nat) : Nat := l.foldl (fun a b => a * 256 + b) 0

/-- Little-endian byte-list decoding, the model of `int.from_bytes(b, "little")`. -/
def leBytes (l : List Nat) : Nat := beBytes l.reverse

/-- Model of `n.to_bytes(2, "big")` for `n < 2^16` (larger values raise in Python,
which the embedders surface as an `error` result). -/
def toBE2 (n : Nat) : List Nat := [n / 256, n % 256]

/-- Model of `n.to_bytes(4, "little")` for `n < 2^32`. -/
def toLE4 (n : Nat) : List Nat :=
  [n % 256, n / 256 % 256, n / 65536 % 256, n / 16777216]

/-- Model of the Python slice `data[a:b]` (total, clamping like Python). -/
def slice (s : List Nat) (a b : Nat) : List Nat := (s.drop a).take (b - a)

/-- Boolean prefix test on lists, the model of `bytes.startswith` /
a regex literal matching at the current position. -/
def isPrefixL {α : Type} [DecidableEq α] : List α → List α → Bool
  | [], _ => true
  | _ :: _, [] => false
  | a :: as, b :: bs => a = b && isPrefixL as bs

/-- Boolean contiguous-substring test. -/
def isSubL {α : Type} [DecidableEq α] (pat : List α) : List α → Bool
  | [] => isPrefixL pat []
  | c :: rest => isPrefixL pat (c :: rest) || isSubL pat rest

/-- Propositional contiguous-substring statement. -/
def SubL {α : Type} (pat s : List α) : Prop := ∃ a b, s = a ++ pat ++ b

/-- UTF-8 encoding of a single scalar value (leading byte plus continuation
bytes; `Char` excludes surrogates, so the four ranges are exhaustive). -/
def utf8EncodeChar (c : Char) : List Nat :=
  let n := c.toNat
  if n < 128 then [n]
  else if n < 2048 then [192 + n / 64, 128 + n % 64]
  else if n < 65536 then [224 + n / 4096, 128 + n / 64 % 64, 128 + n % 64]
  else [240 + n / 262144, 128 + n / 4096 % 64, 128 + n / 64 % 64, 128 + n % 64]

/-- Model of `str.encode("utf-8")`. -/
def utf8Encode : List Char → List Nat
  | [] => []
  | c :: cs => utf8EncodeChar c ++ utf8Encode cs

/-- Model of Python `str.replace(old, new)`: scan left to right, replacing
non-overlapping occurrences.  The fuel argument makes the recursion structural;
`pyReplace` below always supplies enough.  (The source only ever calls this
with a nonempty `old`.) -/
def pyReplaceFuel (old new : List Char) : Nat → List Char → List Char
  | 0, s => s
  | fuel + 1, s =>
    if isPrefixL old s ∧ old ≠ [] then
      new ++ pyReplaceFuel old new fuel (s.drop old.length)
    else
      match s with
      | [] => []
      | c :: cs => c :: pyReplaceFuel old new fuel cs

/-- Model of Python `str.replace(old, new)`. -/
def pyReplace (old new s : List Char) : List Char :=
  pyReplaceFuel old new (s.length + 1) s

/-- The inner `esc` helper of `_build_xmp_packet`: four sequential `replace`
calls, ampersand first. -/
def esc (s : List Char) : List Char :=
  pyReplace ['"'] "&quot;".data
    (pyReplace ['>'] "&gt;".data
      (pyReplace ['<'] "&lt;".data
        (pyReplace ['&'] "&amp;".data s)))

/-- Character-wise view of `esc` (proved equal to it in `esc_eq_mapEsc`). -/
def escChar (c : Char) : List Char :=
  if c = '&' then ['&', 'a', 'm', 'p', ';']
  else if c = '<' then ['&', 'l', 't', ';']
  else if c = '>' then ['&', 'g', 't', ';']
  else if c = '"' then ['&', 'q', 'u', 'o', 't', ';']
  else [c]

/-- Concat-map helper used to analyse `esc`. -/
def mapEsc : List Char → List Char
  | [] => []
  | c :: cs => escChar c ++ mapEsc cs

/-- Character-wise view of a single-character `replace` pass. -/
def mapRep (p : Char) (r : List Char) : List Char → List Char
  | [] => []
  | c :: cs => (if c = p then r else [c]) ++ mapRep p r cs

/-- Template text of `_build_xmp_packet` before `<dc:description>`. -/
def xmpPartA : List Char :=
  ("<?xpacket begin=\"ï»¿\" id=\"W5M0MpCehiHzreSzNTczkc9d\"?>\n<x:xmpmeta xmlns:x=\"adobe:ns:meta/\">\n  <rdf:RDF xmlns:rdf=\"http://www.w3.org/1999/02/22-rdf-syntax-ns#\">\n    <rdf:Description\n      xmlns:dc=\"http://purl.org/dc/elements/1.1/\">\n      ").data

/-- Literal `<dc:description>`, also the first literal of the extractor's
description pattern. -/
def dcDescOpen : List Char := "<dc:description>".data

/-- Literal `</dc:description>`. -/
def dcDescClose : List Char := "</dc:description>".data

/-- Literal `<dc:title>`. -/
def dcTitleOpen : List Char := "<dc:title>".data

/-- Literal `</dc:title>`. -/
def dcTitleClose : List Char := "</dc:title>".data

/-- Literal `<rdf:li`, the opening-tag literal of the extractor's pattern. -/
def rdfLiOpenPat : List Char := "<rdf:li".data

/-- Literal `</rdf:li>`. -/
def rdfLiClose : List Char := "</rdf:li>".data

/-- Template text between `<dc:description>` and the description `<rdf:li`. -/
def xmpPartB : List Char := "\n        <rdf:Alt>\n          ".data

/-- Template text between `<rdf:li` and the escaped payload: the attribute
list and the closing `>` of the opening tag. -/
def xmpPartC : List Char := " xml:lang=\"x-default\">".data

/-- Template text between the description `</rdf:li>` and `</dc:description>`. -/
def xmpPart2a : List Char := "\n        </rdf:Alt>\n      ".data

/-- Template text between `</dc:description>` and the title payload. -/
def xmpPart2b : List Char :=
  "\n      <dc:title>\n        <rdf:Alt>\n          <rdf:li xml:lang=\"x-default\">".data

/-- Template text after the title `</rdf:li>` to the end of the packet. -/
def xmpPart3r : List Char :=
  ("\n        </rdf:Alt>\n      </dc:title>\n    </rdf:Description>\n  </rdf:RDF>\n</x:xmpmeta>\n<?xpacket end=\"w\"?>").data

/-- Everything of the packet before the first escaped payload. -/
def xmpPart1 : List Char := xmpPartA ++ dcDescOpen ++ xmpPartB ++ rdfLiOpenPat ++ xmpPartC

/-- Everything of the packet between the two escaped payloads. -/
def xmpPart2 : List Char := rdfLiClose ++ xmpPart2a ++ dcDescClose ++ xmpPart2b

/-- Everything of the packet after the second escaped payload. -/
def xmpPart3 : List Char := rdfLiClose ++ xmpPart3r

/-- Model of `_build_xmp_packet`: the f-string template with `esc tags_str`
interpolated at the two `rdf:li` positions (see `build_packet_is_template`
for the check that the parts reassemble the source's literal template). -/
def _build_xmp_packet (tags_str : List Char) : List Char :=
  xmpPart1 ++ esc tags_str ++ xmpPart2 ++ esc tags_str ++ xmpPart3

/-- The null-terminated XMP namespace signature
`b"http://ns.adobe.com/xap/1.0/\x00"` (29 bytes). -/
def xmpHeaderBytes : List Nat := utf8Encode "http://ns.adobe.com/xap/1.0/".data ++ [0]

/-- Outcome of `_embed_xmp_to_jpeg`: `wrote out` is `return True` after
overwriting the file with `out`; `notJpeg` is the `return False` path (no
write); `error` is the `OverflowError` raised by `to_bytes` when the segment
length does not fit 16 bits (raised before the file is opened for writing). -/
inductive JpegResult where
  | wrote (out : List Nat)
  | notJpeg
  | error
deriving DecidableEq

/-- The segment-stripping loop of `_embed_xmp_to_jpeg` on the suffix
`data[pos:]`; returns `data[pos:]` at loop exit (the source's `rest`).
Fueled version of the `while pos < len(data)` loop. -/
def stripXmpFuel : Nat → List Nat → List Nat
  | 0, s => s
  | fuel + 1, s =>
    if s = [] then s
    else if s.take 2 = [255, 225] then
      let seg_len := beBytes ((s.drop 2).take 2)
      let seg_body := (s.drop 4).take (seg_len - 2)
      if isPrefixL xmpHeaderBytes seg_body then
        stripXmpFuel fuel (s.drop (2 + seg_len))
      else s
    else s

/-- The segment-stripping loop, started with ample fuel. -/
def stripXmp (s : List Nat) : List Nat := stripXmpFuel (s.length + 1) s

/-- Model of `_embed_xmp_to_jpeg` as a function of the file content. -/
def _embed_xmp_to_jpeg (xmp_packet : List Char) (data : List Nat) : JpegResult :=
  let xmp_bytes := utf8Encode xmp_packet
  let app1_data := xmpHeaderBytes ++ xmp_bytes
  let app1_length := app1_data.length + 2
  if data.take 2 = [255, 216] then
    let rest := stripXmp (data.drop 2)
    if app1_length < 65536 then
      .wrote ([255, 216] ++ [255, 225] ++ toBE2 app1_length ++ app1_data ++ rest)
    else .error
  else .notJpeg

/-- Bytes written by a JPEG embed, `[]` when nothing was written. -/
def jpegOutBytes : JpegResult → List Nat
  | .wrote out => out
  | _ => []

/-- Content of the target file after a JPEG embed call. -/
def jpegFileAfter (orig : List Nat) : JpegResult → List Nat
  | .wrote out => out
  | _ => orig

/-- Boolean result as seen by the dispatcher (`error` is caught there and
reported as `False`). -/
def jpegReturn : JpegResult → Bool
  | .wrote _ => true
  | _ => false

/-- Minimal model of a `pathlib` path: the part before the last suffix, and
the last suffix itself. -/
structure WPath where
  stem : List Char
  suffix : List Char
deriving DecidableEq

/-- Model of `Path.with_suffix`. -/
def withSuffix (p : WPath) (s : List Char) : WPath := ⟨p.stem, s⟩

/-- Outcome of `_embed_xmp_to_webp`: `wrote out` overwrites the target file;
`sidecar path content` is the fallback `write_text` of the packet (UTF-8
encoded) to the `.xmp` sidecar, returning `True` with the target file
untouched; `error` is a `to_bytes` `OverflowError` (no write). -/
inductive WebpResult where
  | wrote (out : List Nat)
  | sidecar (path : WPath) (content : List Nat)
  | error
deriving DecidableEq

/-- The bytes `b"RIFF"`. -/
def riffTag : List Nat := [82, 73, 70, 70]

/-- The bytes `b"WEBP"`. -/
def webpTag : List Nat := [87, 69, 66, 80]

/-- The reserved chunk identifier `b"XMP "` (trailing space significant). -/
def xmpChunkId : List Nat := [88, 77, 80, 32]

/-- The sidecar extension `".xmp"`. -/
def xmpSidecarExt : List Char := ".xmp".data

/-- The chunk-scanning loop of `_embed_xmp_to_webp` on the suffix
`data[pos:]`, yielding every chunk it visits in order (the source keeps only
the non-`XMP ` ones, applied as a filter in `_embed_xmp_to_webp`).  A chunk
is `(chunk_id, chunk_data)`; the loop breaks when fewer than 8 bytes remain
(`pos + 8 > len(data)`) and advances by `8 + padded_size`. -/
def scanChunksFuel : Nat → List Nat → List (List Nat × List Nat)
  | 0, _ => []
  | fuel + 1, s =>
    if s.length < 8 then []
    else
      let chunk_id := s.take 4
      let chunk_size := leBytes (slice s 4 8)
      let chunk_data := (s.drop 8).take chunk_size
      let padded_size := chunk_size + chunk_size % 2
      (chunk_id, chunk_data) :: scanChunksFuel fuel (s.drop (8 + padded_size))

/-- The chunk scan, started with ample fuel. -/
def scanChunks (s : List Nat) : List (List Nat × List Nat) := scanChunksFuel (s.length + 1) s

/-- The RIFF body serialization loop of `_embed_xmp_to_webp`: identifier,
4-byte little-endian raw payload length, payload, and one zero pad byte after
an odd payload. -/
def serializeChunks : List (List Nat × List Nat) → List Nat
  | [] => []
  | (chunk_id, chunk_data) :: rest =>
    chunk_id ++ toLE4 chunk_data.length ++ chunk_data ++
      (if chunk_data.length % 2 = 1 then [0] else []) ++ serializeChunks rest

/-- Model of `_embed_xmp_to_webp` as a function of the file path and content. -/
def _embed_xmp_to_webp (path : WPath) (xmp_packet : List Char) (data : List Nat) : WebpResult :=
  let xmp_bytes := utf8Encode xmp_packet
  if data.take 4 = riffTag ∧ slice data 8 12 = webpTag then
    let kept := (scanChunks (data.drop 12)).filter (fun c => decide (c.1 ≠ xmpChunkId))
    let chunks := kept ++ [(xmpChunkId, xmp_bytes)]
    if chunks.all (fun c => decide (c.2.length < 4294967296)) then
      let body := webpTag ++ serializeChunks chunks
      if body.length < 4294967296 then
        .wrote (riffTag ++ toLE4 body.length ++ body)
      else .error
    else .error
  else .sidecar (withSuffix path xmpSidecarExt) (utf8Encode xmp_packet)

/-- Bytes written to the target file by a WebP embed, `[]` when none. -/
def webpOutBytes : WebpResult → List Nat
  | .wrote out => out
  | _ => []

/-- Content of the target file after a WebP embed call (a sidecar write does
not touch the target file). -/
def webpFileAfter (orig : List Nat) : WebpResult → List Nat
  | .wrote out => out
  | _ => orig

/-- Boolean result as seen by the dispatcher (`error` is a raised exception,
caught there and reported as `False`). -/
def webpReturn : WebpResult → Bool
  | .wrote _ => true
  | .sidecar _ _ => true
  | .error => false

/-- True exactly on the in-place-overwrite outcome. -/
def isWrote : WebpResult → Bool
  | .wrote _ => true
  | _ => false

/-- A PNG textual metadata chunk: key, text, and whether compressed. -/
structure PngTextChunk where
  key : List Char
  text : List Char
  compressed : Bool
deriving DecidableEq

/-- A decoded PNG: opaque pixel payload plus its textual metadata chunks. -/
structure PngImage where
  pixels : List Nat
  textChunks : List PngTextChunk

/-- The reserved PNG text key `"XML:com.adobe.xmp"`. -/
def xmpPngKey : List Char := "XML:com.adobe.xmp".data

/-- Modelled from the spec: the PNG embedder delegates to the PIL container
library (not part of this repository).  `img.save(filepath, "PNG",
pnginfo=meta)` re-encodes the image and writes exactly the text chunks of the
supplied `meta`; the text chunks of the opened file are not carried over. -/
def pilSavePng (img : PngImage) (meta : List PngTextChunk) : PngImage :=
  ⟨img.pixels, meta⟩

/-- Modelled from the spec: `PngInfo.add_text(key, text, zip=...)` appends one
text chunk, uncompressed when `zip` is false. -/
def pngInfoAddText (meta : List PngTextChunk) (key text : List Char) (zip : Bool) :
    List PngTextChunk :=
  meta ++ [⟨key, text, zip⟩]

/-- Model of `_embed_xmp_to_png`: open the image, build a fresh `PngInfo`
with the single uncompressed `XML:com.adobe.xmp` entry, save with it, return
`True`. -/
def _embed_xmp_to_png (img : PngImage) (xmp_packet : List Char) : PngImage × Bool :=
  (pilSavePng img (pngInfoAddText [] xmpPngKey xmp_packet false), true)

/-- Split a string at the first occurrence of `pat`: returns the text before
the occurrence and the text after it.  This is the leftmost-match search the
extractor's regex performs for each literal sub-pattern. -/
def splitFirst (pat : List Char) : List Char → Option (List Char × List Char)
  | [] => if isPrefixL pat [] then some ([], []) else none
  | c :: rest =>
    if isPrefixL pat (c :: rest) then some ([], (c :: rest).drop pat.length)
    else
      match splitFirst pat rest with
      | some (a, b) => some (c :: a, b)
      | none => none

/-- The characters Python's `str.strip()` removes (`str.isspace()`). -/
def pySpaceChars : List Char :=
  [' ', '\t', '\n', '\r', '\x0b', '\x0c', '\x1c', '\x1d', '\x1e', '\x1f',
   '\x85', '\xa0', ' ', ' ', ' ', ' ', ' ', ' ',
   ' ', ' ', ' ', ' ', ' ', ' ', ' ',
   ' ', ' ', ' ', '　']

/-- Whether `str.strip()` removes this character. -/
def isPySpace (c : Char) : Bool := pySpaceChars.contains c

/-- Model of Python `str.strip()`. -/
def pyStrip (s : List Char) : List Char :=
  ((s.dropWhile isPySpace).reverse.dropWhile isPySpace).reverse

/-- Model of `html.unescape`, restricted to the four named character
references `esc` can emit (`&amp;` `&lt;` `&gt;` `&quot;`).  In every string
the packet builder produces, each ampersand begins one of these four
references, so on those strings the restriction agrees with the stdlib
function; an ampersand not starting one of them is kept verbatim, as the
stdlib does for text that is not a character reference. -/
def htmlUnescape : List Char → List Char
  | [] => []
  | '&' :: 'a' :: 'm' :: 'p' :: ';' :: rest => '&' :: htmlUnescape rest
  | '&' :: 'l' :: 't' :: ';' :: rest => '<' :: htmlUnescape rest
  | '&' :: 'g' :: 't' :: ';' :: rest => '>' :: htmlUnescape rest
  | '&' :: 'q' :: 'u' :: 'o' :: 't' :: ';' :: rest => '"' :: htmlUnescape rest
  | c :: rest => c :: htmlUnescape rest

/-- One branch of `extract_xmp_description`: the regex
`openTag .*? <rdf:li [^>]*> (.+?) </rdf:li> .*? closeTag` (DOTALL, lazy),
rendered by leftmost-shortest literal searches: find `openTag`, then the
first `<rdf:li`, skip its attribute list to the first `>`, capture up to the
first `</rdf:li>` (the capture must be nonempty), and require `closeTag`
somewhere after.  On every string `_build_xmp_packet` produces this agrees
with the regex search (the first candidate either matches or no candidate
does). -/
def extractField (openTag closeTag s : List Char) : Option (List Char) :=
  match splitFirst openTag s with
  | none => none
  | some (_, r1) =>
    match splitFirst rdfLiOpenPat r1 with
    | none => none
    | some (_, r2) =>
      match splitFirst ['>'] r2 with
      | none => none
      | some (_, r3) =>
        match splitFirst rdfLiClose r3 with
        | none => none
        | some (content, r4) =>
          if content = [] then none
          else if (splitFirst closeTag r4).isSome then some content else none

/-- Model of `extract_xmp_description` (on string input): try the
`dc:description` pattern, fall back to `dc:title`, else return the empty
string; a successful capture is stripped and HTML-unescaped. -/
def extract_xmp_description (xmp_data : List Char) : List Char :=
  match extractField dcDescOpen dcDescClose xmp_data with
  | some content => htmlUnescape (pyStrip content)
  | none =>
    match extractField dcTitleOpen dcTitleClose xmp_data with
    | some content => htmlUnescape (pyStrip content)
    | none => []

/-- The JPEG path of `embed_xmp_single`: build the packet from the tag text,
then embed. -/
def embedJpegWithText (tags_str : List Char) (data : List Nat) : JpegResult :=
  _embed_xmp_to_jpeg (_build_xmp_packet tags_str) data

/-- The WebP path of `embed_xmp_single`. -/
def embedWebpWithText (path : WPath) (tags_str : List Char) (data : List Nat) : WebpResult :=
  _embed_xmp_to_webp path (_build_xmp_packet tags_str) data

/-- Modelled from the spec (JPEG container model, §3): walk the sequence of
marker-tagged segments after the 2-byte SOI marker (2-byte marker, 2-byte
big-endian length covering itself, body) and count the segments that are APP1
(`FF E1`) with a body starting with the XMP namespace signature.  Used only
to state whole-file uniqueness of the metadata segment. -/
def countXmpSegsFuel : Nat → List Nat → Nat
  | 0, _ => 0
  | fuel + 1, s =>
    if s.length < 4 then 0
    else
      let marker := s.take 2
      let seg_len := beBytes ((s.drop 2).take 2)
      let body := (s.drop 4).take (seg_len - 2)
      (if marker = [255, 225] ∧ isPrefixL xmpHeaderBytes body then 1 else 0) +
        countXmpSegsFuel fuel (s.drop (2 + seg_len))

/-- The segment-counting walk, started with ample fuel. -/
def countXmpSegs (s : List Nat) : Nat := countXmpSegsFuel (s.length + 1) s

/-- Number of chunks with the reserved `XMP ` identifier in a WebP file,
counted by the chunk walk from byte offset 12. -/
def countXmpChunks (file : List Nat) : Nat :=
  (scanChunks (file.drop 12)).countP (fun c => decide (c.1 = xmpChunkId))

/-- Well-formed RIFF chunk sequence, following the spec's words: each chunk
is a 4-byte identifier, a 4-byte little-endian length field holding exactly
the raw payload length, the payload, and — exactly when the payload length is
odd — a single zero pad byte that the length field does not count. -/
inductive ChunksWF : List Nat → Prop where
  | nil : ChunksWF []
  | cons (cid lenField payload pad rest : List Nat) :
      cid.length = 4 →
      lenField.length = 4 →
      leBytes lenField = payload.length →
      pad = (if payload.length % 2 = 1 then [0] else []) →
      ChunksWF rest →
      ChunksWF (cid ++ lenField ++ payload ++ pad ++ rest)

/-- Escaped-form check for field content: no raw `<`, `>` or `"`, and every
`&` begins one of the four references `&amp;` `&lt;` `&gt;` `&quot;`. -/
def escapedForm : List Char → Bool
  | [] => true
  | c :: rest =>
    if c = '<' then false
    else if c = '>' then false
    else if c = '"' then false
    else if c = '&' then
      (isPrefixL "amp;".data rest || isPrefixL "lt;".data rest ||
       isPrefixL "gt;".data rest || isPrefixL "quot;".data rest) && escapedForm rest
    else escapedForm rest

/-! ### Byte-arithmetic lemmas -/

theorem toBE2_length (n : Nat) : (toBE2 n).length = 2 := rfl

theorem toLE4_length (n : Nat) : (toLE4 n).length = 4 := rfl

theorem beBytes_toBE2 (n : Nat) : beBytes (toBE2 n) = n := by
  simp [beBytes, toBE2]
  omega

theorem leBytes_toLE4 (n : Nat) : leBytes (toLE4 n) = n := by
  simp [leBytes, beBytes, toLE4]
  omega

/-! ### Prefix-test lemmas -/

theorem isPrefixL_append_self {α : Type} [DecidableEq α] (p r : List α) :
    isPrefixL p (p ++ r) = true := by
  induction p with
  | nil => rfl
  | cons a as ih => simp [isPrefixL, ih]

theorem isPrefixL_length_le {α : Type} [DecidableEq α] (p s : List α)
    (h : isPrefixL p s = true) : p.length ≤ s.length := by
  induction p generalizing s with
  | nil => simp
  | cons a as ih =>
    cases s with
    | nil => simp [isPrefixL] at h
    | cons b bs =>
      simp only [isPrefixL, Bool.and_eq_true, decide_eq_true_eq] at h
      have := ih bs h.2
      simp only [List.length_cons]
      omega

theorem isPrefixL_append_of_le {α : Type} [DecidableEq α] (p x y : List α)
    (h : p.length ≤ x.length) : isPrefixL p (x ++ y) = isPrefixL p x := by
  induction p generalizing x with
  | nil => rfl
  | cons a as ih =>
    cases x with
    | nil => simp at h
    | cons b bs =>
      simp only [List.cons_append, isPrefixL, List.append_eq]
      rw [ih bs (by simpa using h)]

theorem isPrefixL_iff_take {α : Type} [DecidableEq α] (p s : List α) :
    isPrefixL p s = true ↔ s.take p.length = p := by
  induction p generalizing s with
  | nil => simp [isPrefixL]
  | cons a as ih =>
    cases s with
    | nil => simp [isPrefixL]
    | cons b bs =>
      simp only [isPrefixL, Bool.and_eq_true, decide_eq_true_eq, List.length_cons,
        List.take_succ_cons, List.cons.injEq, ih]
      constructor
      · rintro ⟨h1, h2⟩
        exact ⟨h1.symm, h2⟩
      · rintro ⟨h1, h2⟩
        exact ⟨h1.symm, h2⟩

/-! ### splitFirst lemmas -/

theorem splitFirst_self (pat rest : List Char) :
    splitFirst pat (pat ++ rest) = some ([], rest) := by
  cases pat with
  | nil =>
    cases rest with
    | nil => rfl
    | cons c cs => simp [splitFirst, isPrefixL]
  | cons a as =>
    have hpre := isPrefixL_append_self (a :: as) rest
    simp only [List.cons_append] at hpre
    simp only [List.cons_append]
    simp only [splitFirst, hpre, if_true]
    have hdrop : ((a :: (as ++ rest)).drop (a :: as).length) = rest := by
      have h2 := List.drop_left (a :: as) rest
      simp only [List.cons_append] at h2
      exact h2
    rw [hdrop]

theorem splitFirst_decomp (pat s a b : List Char)
    (h : splitFirst pat s = some (a, b)) : s = a ++ pat ++ b := by
  induction s generalizing a b with
  | nil =>
    simp only [splitFirst] at h
    split at h
    · rename_i hpre
      cases pat with
      | nil =>
        simp only [Option.some.injEq, Prod.mk.injEq] at h
        simp [← h.1, ← h.2]
      | cons c cs => simp [isPrefixL] at hpre
    · exact absurd h (by simp)
  | cons c cs ih =>
    simp only [splitFirst] at h
    split at h
    · rename_i hpre
      simp only [Option.some.injEq, Prod.mk.injEq] at h
      obtain ⟨ha, hb⟩ := h
      rw [isPrefixL_iff_take] at hpre
      subst ha
      rw [← hb]
      simp only [List.nil_append]
      conv_lhs => rw [← List.take_append_drop pat.length (c :: cs)]
      rw [hpre]
    · cases hsc : splitFirst pat cs with
      | none => rw [hsc] at h; exact absurd h (by simp)
      | some ab =>
        obtain ⟨x, y⟩ := ab
        rw [hsc] at h
        simp only [Option.some.injEq, Prod.mk.injEq] at h
        obtain ⟨ha, hb⟩ := h
        subst hb
        rw [← ha]
        simp [ih x y hsc]

theorem splitFirst_marker (pat a rest : List Char)
    (h : splitFirst pat (a ++ pat) = some (a, [])) :
    splitFirst pat (a ++ (pat ++ rest)) = some (a, rest) := by
  induction a with
  | nil =>
    simp only [List.nil_append]
    exact splitFirst_self pat rest
  | cons c a2 ih =>
    simp only [List.cons_append, splitFirst, List.append_eq] at h ⊢
    split at h
    · rename_i hpre
      simp only [Option.some.injEq, Prod.mk.injEq] at h
      exact absurd h.1 (by simp)
    · rename_i hpre
      cases hsc : splitFirst pat (a2 ++ pat) with
      | none => rw [hsc] at h; exact absurd h (by simp)
      | some ab =>
        obtain ⟨x, y⟩ := ab
        rw [hsc] at h
        simp only [Option.some.injEq, Prod.mk.injEq] at h
        obtain ⟨hx, hy⟩ := h
        have hx2 : x = a2 := by injection hx
        rw [hx2, hy] at hsc
        have hlen : pat.length ≤ (c :: (a2 ++ pat)).length := by
          simp only [List.length_cons, List.length_append]
          omega
        have hpre2 : isPrefixL pat (c :: (a2 ++ (pat ++ rest))) = false := by
          have heq : c :: (a2 ++ (pat ++ rest)) = (c :: (a2 ++ pat)) ++ rest := by simp
          rw [heq, isPrefixL_append_of_le pat _ rest hlen]
          exact Bool.not_eq_true _ ▸ Bool.of_not_eq_true hpre
        rw [hpre2]
        simp only [Bool.false_eq_true, if_false]
        rw [ih hsc]

theorem splitFirst_skip (p0 : Char) (pt a rest : List Char)
    (ha : ∀ c ∈ a, c ≠ p0) :
    splitFirst (p0 :: pt) (a ++ ((p0 :: pt) ++ rest)) = some (a, rest) := by
  induction a with
  | nil =>
    simp only [List.nil_append]
    exact splitFirst_self (p0 :: pt) rest
  | cons c a2 ih =>
    have hc : c ≠ p0 := ha c (by simp)
    have hcs : p0 ≠ c := fun hh => hc hh.symm
    simp only [List.cons_append, splitFirst, List.append_eq]
    have hpre : isPrefixL (p0 :: pt) (c :: (a2 ++ (p0 :: (pt ++ rest)))) = false := by
      simp [isPrefixL, hcs]
    rw [hpre]
    simp only [Bool.false_eq_true, if_false]
    simp only [List.cons_append] at ih
    rw [ih (fun d hd => ha d (by simp [hd]))]

/-! ### Escaping lemmas -/

theorem pyReplaceFuel_singleton (p : Char) (r : List Char) :
    ∀ (fuel : Nat) (s : List Char), s.length < fuel →
      pyReplaceFuel [p] r fuel s = mapRep p r s := by
  intro fuel
  induction fuel with
  | zero => intro s h; omega
  | succ f ih =>
    intro s h
    cases s with
    | nil => simp [pyReplaceFuel, mapRep, isPrefixL]
    | cons c cs =>
      have hlen : cs.length < f := by
        simp only [List.length_cons] at h
        omega
      by_cases hc : c = p
      · subst hc
        have hcond : isPrefixL [c] (c :: cs) = true ∧ ([c] : List Char) ≠ [] := by
          refine ⟨by simp [isPrefixL], by simp⟩
        simp only [pyReplaceFuel, if_pos hcond, mapRep, if_pos rfl]
        simp only [List.length_cons, List.length_nil, List.drop_succ_cons, List.drop_zero]
        rw [ih cs hlen]
        simp
      · have hcond : ¬(isPrefixL [p] (c :: cs) = true ∧ ([p] : List Char) ≠ []) := by
          rintro ⟨h1, _⟩
          simp only [isPrefixL, Bool.and_eq_true, decide_eq_true_eq] at h1
          exact hc h1.1.symm
        simp only [pyReplaceFuel, if_neg hcond, mapRep, if_neg hc]
        simp [ih cs hlen]

theorem pyReplace_singleton (p : Char) (r s : List Char) :
    pyReplace [p] r s = mapRep p r s :=
  pyReplaceFuel_singleton p r (s.length + 1) s (by omega)

theorem mapRep_append (p : Char) (r a b : List Char) :
    mapRep p r (a ++ b) = mapRep p r a ++ mapRep p r b := by
  induction a with
  | nil => rfl
  | cons c cs ih => simp [mapRep, ih]

theorem esc_eq_mapEsc (s : List Char) : esc s = mapEsc s := by
  unfold esc
  simp only [pyReplace_singleton]
  induction s with
  | nil => rfl
  | cons c cs ih =>
    simp only [mapRep, mapEsc, mapRep_append, ih]
    congr 1
    by_cases h1 : c = '&'
    · subst h1; rfl
    · by_cases h2 : c = '<'
      · subst h2; rfl
      · by_cases h3 : c = '>'
        · subst h3; rfl
        · by_cases h4 : c = '"'
          · subst h4; rfl
          · simp [escChar, mapRep, h1, h2, h3, h4]

theorem escChar_ne_nil (c : Char) : escChar c ≠ [] := by
  unfold escChar
  split
  · simp
  · split
    · simp
    · split
      · simp
      · split <;> simp

theorem mapEsc_ne_nil (t : List Char) (h : t ≠ []) : mapEsc t ≠ [] := by
  cases t with
  | nil => exact absurd rfl h
  | cons c cs =>
    simp only [mapEsc]
    intro hx
    exact escChar_ne_nil c (List.append_eq_nil.mp hx).1

theorem escChar_no_lt (c : Char) : ∀ d ∈ escChar c, d ≠ '<' := by
  unfold escChar
  split
  · decide
  · split
    · decide
    · split
      · decide
      · split
        · decide
        · rename_i h1 h2 h3 h4
          intro d hd
          simp only [List.mem_singleton] at hd
          subst hd
          exact h2

theorem mapEsc_no_lt (t : List Char) : ∀ d ∈ mapEsc t, d ≠ '<' := by
  induction t with
  | nil => simp [mapEsc]
  | cons c cs ih =>
    simp only [mapEsc, List.mem_append]
    rintro d (hd | hd)
    · exact escChar_no_lt c d hd
    · exact ih d hd

theorem htmlUnescape_amp (r : List Char) :
    htmlUnescape ('&' :: 'a' :: 'm' :: 'p' :: ';' :: r) = '&' :: htmlUnescape r := by
  simp [htmlUnescape]

theorem htmlUnescape_lt (r : List Char) :
    htmlUnescape ('&' :: 'l' :: 't' :: ';' :: r) = '<' :: htmlUnescape r := by
  simp [htmlUnescape]

theorem htmlUnescape_gt (r : List Char) :
    htmlUnescape ('&' :: 'g' :: 't' :: ';' :: r) = '>' :: htmlUnescape r := by
  simp [htmlUnescape]

theorem htmlUnescape_quot (r : List Char) :
    htmlUnescape ('&' :: 'q' :: 'u' :: 'o' :: 't' :: ';' :: r) = '"' :: htmlUnescape r := by
  simp [htmlUnescape]

set_option maxHeartbeats 1000000 in
theorem htmlUnescape_cons_ne (c : Char) (rest : List Char) (h : c ≠ '&') :
    htmlUnescape (c :: rest) = c :: htmlUnescape rest := by
  rw [htmlUnescape.eq_def]
  split <;> simp_all

theorem htmlUnescape_mapEsc (t : List Char) : htmlUnescape (mapEsc t) = t := by
  induction t with
  | nil => rfl
  | cons c cs ih =>
    simp only [mapEsc]
    by_cases h1 : c = '&'
    · subst h1
      rw [show escChar '&' = ['&', 'a', 'm', 'p', ';'] from rfl]
      simp only [List.cons_append, List.nil_append]
      rw [htmlUnescape_amp, ih]
    · by_cases h2 : c = '<'
      · subst h2
        rw [show escChar '<' = ['&', 'l', 't', ';'] from rfl]
        simp only [List.cons_append, List.nil_append]
        rw [htmlUnescape_lt, ih]
      · by_cases h3 : c = '>'
        · subst h3
          rw [show escChar '>' = ['&', 'g', 't', ';'] from rfl]
          simp only [List.cons_append, List.nil_append]
          rw [htmlUnescape_gt, ih]
        · by_cases h4 : c = '"'
          · subst h4
            rw [show escChar '"' = ['&', 'q', 'u', 'o', 't', ';'] from rfl]
            simp only [List.cons_append, List.nil_append]
            rw [htmlUnescape_quot, ih]
          · rw [show escChar c = [c] by simp [escChar, h1, h2, h3, h4]]
            rw [List.cons_append, List.nil_append, htmlUnescape_cons_ne c _ h1, ih]

theorem escapedForm_mapEsc (t : List Char) : escapedForm (mapEsc t) = true := by
  induction t with
  | nil => rfl
  | cons c cs ih =>
    simp only [mapEsc]
    by_cases h1 : c = '&'
    · subst h1
      show escapedForm ('&' :: 'a' :: 'm' :: 'p' :: ';' :: mapEsc cs) = true
      have hpre : isPrefixL "amp;".data ('a' :: 'm' :: 'p' :: ';' :: mapEsc cs) = true := by
        have := isPrefixL_append_self "amp;".data (mapEsc cs)
        simpa using this
      simp [escapedForm, hpre, ih]
    · by_cases h2 : c = '<'
      · subst h2
        show escapedForm ('&' :: 'l' :: 't' :: ';' :: mapEsc cs) = true
        have hpre : isPrefixL "lt;".data ('l' :: 't' :: ';' :: mapEsc cs) = true := by
          have := isPrefixL_append_self "lt;".data (mapEsc cs)
          simpa using this
        simp [escapedForm, hpre, ih]
      · by_cases h3 : c = '>'
        · subst h3
          show escapedForm ('&' :: 'g' :: 't' :: ';' :: mapEsc cs) = true
          have hpre : isPrefixL "gt;".data ('g' :: 't' :: ';' :: mapEsc cs) = true := by
            have := isPrefixL_append_self "gt;".data (mapEsc cs)
            simpa using this
          simp [escapedForm, hpre, ih]
        · by_cases h4 : c = '"'
          · subst h4
            show escapedForm ('&' :: 'q' :: 'u' :: 'o' :: 't' :: ';' :: mapEsc cs) = true
            have hpre : isPrefixL "quot;".data ('q' :: 'u' :: 'o' :: 't' :: ';' :: mapEsc cs) = true := by
              have := isPrefixL_append_self "quot;".data (mapEsc cs)
              simpa using this
            simp [escapedForm, hpre, ih]
          · rw [show escChar c = [c] by simp [escChar, h1, h2, h3, h4]]
            rw [List.cons_append, List.nil_append]
            simp [escapedForm, h1, h2, h3, h4, ih]

/-! ### Loop lemmas: JPEG segment stripping -/

theorem stripXmpFuel_irrel (f : Nat) :
    ∀ (g : Nat) (s : List Nat), s.length < f → s.length < g →
      stripXmpFuel f s = stripXmpFuel g s := by
  induction f with
  | zero => intro g s h _; omega
  | succ f ih =>
    intro g s hf hg
    cases g with
    | zero => omega
    | succ g =>
      simp only [stripXmpFuel]
      by_cases h0 : s = []
      · simp [h0]
      · simp only [if_neg h0]
        by_cases h1 : s.take 2 = [255, 225]
        · simp only [if_pos h1]
          by_cases h2 : isPrefixL xmpHeaderBytes
              ((s.drop 4).take (beBytes ((s.drop 2).take 2) - 2)) = true
          · simp only [h2, if_true]
            have hlen : (s.drop (2 + beBytes ((s.drop 2).take 2))).length < s.length := by
              rw [List.length_drop]
              have : 0 < s.length := List.length_pos.mpr h0
              omega
            exact ih g _ (by omega) (by omega)
          · simp only [Bool.not_eq_true] at h2
            simp only [h2, Bool.false_eq_true, if_false]
        · simp only [if_neg h1]

theorem stripXmp_nil : stripXmp [] = [] := rfl

theorem stripXmp_stop (s : List Nat)
    (h : s.take 2 ≠ [255, 225] ∨
      isPrefixL xmpHeaderBytes ((s.drop 4).take (beBytes ((s.drop 2).take 2) - 2)) = false) :
    stripXmp s = s := by
  unfold stripXmp
  by_cases h0 : s = []
  · simp [h0, stripXmpFuel]
  · simp only [stripXmpFuel, if_neg h0]
    rcases h with h | h
    · simp only [if_neg h]
    · by_cases h1 : s.take 2 = [255, 225]
      · simp only [if_pos h1, h, Bool.false_eq_true, if_false]
      · simp only [if_neg h1]

theorem stripXmp_step (s : List Nat) (h0 : s ≠ [])
    (h1 : s.take 2 = [255, 225])
    (h2 : isPrefixL xmpHeaderBytes ((s.drop 4).take (beBytes ((s.drop 2).take 2) - 2)) = true) :
    stripXmp s = stripXmp (s.drop (2 + beBytes ((s.drop 2).take 2))) := by
  have lhs_eq : stripXmpFuel (s.length + 1) s =
      stripXmpFuel s.length (s.drop (2 + beBytes ((s.drop 2).take 2))) := by
    simp only [stripXmpFuel, if_neg h0, if_pos h1, h2, if_true]
  unfold stripXmp
  rw [lhs_eq]
  apply stripXmpFuel_irrel
  · rw [List.length_drop]
    have : 0 < s.length := List.length_pos.mpr h0
    omega
  · omega

theorem stripXmp_idem (s : List Nat) : stripXmp (stripXmp s) = stripXmp s := by
  have main : ∀ (n : Nat) (s : List Nat), s.length ≤ n →
      stripXmp (stripXmp s) = stripXmp s := by
    intro n
    induction n with
    | zero =>
      intro s hs
      have : s = [] := List.length_eq_zero.mp (Nat.le_zero.mp hs)
      simp [this, stripXmp_nil]
    | succ n ih =>
      intro s hs
      by_cases h0 : s = []
      · simp [h0, stripXmp_nil]
      · by_cases h1 : s.take 2 = [255, 225]
        · by_cases h2 : isPrefixL xmpHeaderBytes
              ((s.drop 4).take (beBytes ((s.drop 2).take 2) - 2)) = true
          · rw [stripXmp_step s h0 h1 h2]
            apply ih
            rw [List.length_drop]
            have : 0 < s.length := List.length_pos.mpr h0
            omega
          · rw [stripXmp_stop s (Or.inr (by simpa using h2))]
            exact stripXmp_stop s (Or.inr (by simpa using h2))
        · rw [stripXmp_stop s (Or.inl h1)]
          exact stripXmp_stop s (Or.inl h1)
  exact main s.length s (Nat.le_refl _)

/-! ### Loop lemmas: WebP chunk scan -/

theorem scanChunksFuel_irrel (f : Nat) :
    ∀ (g : Nat) (s : List Nat), s.length < f → s.length < g →
      scanChunksFuel f s = scanChunksFuel g s := by
  induction f with
  | zero => intro g s h _; omega
  | succ f ih =>
    intro g s hf hg
    cases g with
    | zero => omega
    | succ g =>
      simp only [scanChunksFuel]
      by_cases h0 : s.length < 8
      · simp only [if_pos h0]
      · simp only [if_neg h0]
        have hlen : (s.drop (8 + (leBytes (slice s 4 8) + leBytes (slice s 4 8) % 2))).length
            < s.length := by
          rw [List.length_drop]
          omega
        rw [ih g _ (by omega) (by omega)]

theorem scanChunks_small (s : List Nat) (h : s.length < 8) : scanChunks s = [] := by
  unfold scanChunks
  simp [scanChunksFuel, h]

theorem scanChunks_step (s : List Nat) (h : 8 ≤ s.length) :
    scanChunks s =
      (s.take 4, (s.drop 8).take (leBytes (slice s 4 8))) ::
        scanChunks (s.drop (8 + (leBytes (slice s 4 8) + leBytes (slice s 4 8) % 2))) := by
  have lhs_eq : scanChunksFuel (s.length + 1) s =
      (s.take 4, (s.drop 8).take (leBytes (slice s 4 8))) ::
        scanChunksFuel s.length
          (s.drop (8 + (leBytes (slice s 4 8) + leBytes (slice s 4 8) % 2))) := by
    simp only [scanChunksFuel, if_neg (by omega : ¬s.length < 8)]
  unfold scanChunks
  rw [lhs_eq]
  congr 1
  apply scanChunksFuel_irrel
  · rw [List.length_drop]; omega
  · omega

/-! ### Loop lemmas: spec-side segment count -/

theorem countXmpSegsFuel_irrel (f : Nat) :
    ∀ (g : Nat) (s : List Nat), s.length < f → s.length < g →
      countXmpSegsFuel f s = countXmpSegsFuel g s := by
  induction f with
  | zero => intro g s h _; omega
  | succ f ih =>
    intro g s hf hg
    cases g with
    | zero => omega
    | succ g =>
      simp only [countXmpSegsFuel]
      by_cases h0 : s.length < 4
      · simp only [if_pos h0]
      · simp only [if_neg h0]
        have hlen : (s.drop (2 + beBytes ((s.drop 2).take 2))).length < s.length := by
          rw [List.length_drop]
          omega
        rw [ih g _ (by omega) (by omega)]

theorem countXmpSegs_small (s : List Nat) (h : s.length < 4) : countXmpSegs s = 0 := by
  unfold countXmpSegs
  simp [countXmpSegsFuel, h]

theorem countXmpSegs_step (s : List Nat) (h : 4 ≤ s.length) :
    countXmpSegs s =
      (if s.take 2 = [255, 225] ∧
          isPrefixL xmpHeaderBytes ((s.drop 4).take (beBytes ((s.drop 2).take 2) - 2)) = true
        then 1 else 0) +
        countXmpSegs (s.drop (2 + beBytes ((s.drop 2).take 2))) := by
  have lhs_eq : countXmpSegsFuel (s.length + 1) s =
      (if s.take 2 = [255, 225] ∧
          isPrefixL xmpHeaderBytes ((s.drop 4).take (beBytes ((s.drop 2).take 2) - 2)) = true
        then 1 else 0) +
        countXmpSegsFuel s.length (s.drop (2 + beBytes ((s.drop 2).take 2))) := by
    simp only [countXmpSegsFuel, if_neg (by omega : ¬s.length < 4)]
  unfold countXmpSegs
  rw [lhs_eq]
  congr 1
  apply countXmpSegsFuel_irrel
  · rw [List.length_drop]; omega
  · omega

/-! ### Strip lemmas -/

theorem dropWhile_eq_self_of_head (s : List Char)
    (h : ∀ c, s.head? = some c → isPySpace c = false) :
    s.dropWhile isPySpace = s := by
  cases s with
  | nil => rfl
  | cons c cs =>
    have hc := h c rfl
    simp [List.dropWhile_cons, hc]

theorem pyStrip_eq_self (s : List Char)
    (h1 : ∀ c, s.head? = some c → isPySpace c = false)
    (h2 : ∀ c, s.getLast? = some c → isPySpace c = false) :
    pyStrip s = s := by
  unfold pyStrip
  rw [dropWhile_eq_self_of_head s h1]
  rw [dropWhile_eq_self_of_head s.reverse
    (fun c hc => h2 c (by rwa [List.head?_reverse] at hc))]
  exact List.reverse_reverse s

theorem escChar_head_not_space (c : Char) (h : isPySpace c = false) :
    ∀ d, (escChar c).head? = some d → isPySpace d = false := by
  unfold escChar
  split_ifs <;> intro d hd <;> simp only [List.head?_cons, Option.some.injEq] at hd <;>
    rw [← hd]
  · decide
  · decide
  · decide
  · decide
  · exact h

theorem escChar_getLast_not_space (c : Char) (h : isPySpace c = false) :
    ∀ d, (escChar c).getLast? = some d → isPySpace d = false := by
  unfold escChar
  split_ifs <;> intro d hd <;> simp only [List.getLast?] at hd <;>
    simp only [Option.some.injEq] at hd <;> rw [← hd]
  · decide
  · decide
  · decide
  · decide
  · exact h

theorem mapEsc_head_not_space (t : List Char)
    (h : ∀ c, t.head? = some c → isPySpace c = false) :
    ∀ d, (mapEsc t).head? = some d → isPySpace d = false := by
  cases t with
  | nil => intro d hd; simp [mapEsc] at hd
  | cons c cs =>
    intro d hd
    simp only [mapEsc] at hd
    cases hesc : escChar c with
    | nil => exact absurd hesc (escChar_ne_nil c)
    | cons e es =>
      rw [hesc, List.cons_append, List.head?_cons, Option.some.injEq] at hd
      have he : (escChar c).head? = some e := by rw [hesc]; rfl
      rw [← hd]
      exact escChar_head_not_space c (h c rfl) e he

theorem mapEsc_getLast_not_space (t : List Char)
    (h : ∀ c, t.getLast? = some c → isPySpace c = false) :
    ∀ d, (mapEsc t).getLast? = some d → isPySpace d = false := by
  induction t with
  | nil => intro d hd; simp [mapEsc] at hd
  | cons c cs ih =>
    intro d hd
    cases hcs : cs with
    | nil =>
      subst hcs
      simp only [mapEsc, List.append_nil] at hd
      exact escChar_getLast_not_space c (h c rfl) d hd
    | cons c2 cs2 =>
      subst hcs
      rw [show mapEsc (c :: c2 :: cs2) = escChar c ++ mapEsc (c2 :: cs2) from rfl,
        List.getLast?_append_of_ne_nil (escChar c)
          (mapEsc_ne_nil (c2 :: cs2) (by simp))] at hd
      have h2 : ∀ x, (c2 :: cs2).getLast? = some x → isPySpace x = false := by
        intro x hx
        exact h x (by rw [List.getLast?_cons_cons]; exact hx)
      exact ih h2 d hd

/-! ### WebP serialization lemmas -/

theorem pad_length (n : Nat) :
    (if n % 2 = 1 then [0] else ([] : List Nat)).length = n % 2 := by
  split
  · simp only [List.length_cons, List.length_nil]
    omega
  · simp only [List.length_nil]
    omega

theorem scanChunks_serialize (chunks : List (List Nat × List Nat)) (g : List Nat)
    (hshape : ∀ c ∈ chunks, (c.1 : List Nat).length = 4 ∧ c.2.length < 4294967296)
    (hg : g.length < 8) :
    scanChunks (serializeChunks chunks ++ g) = chunks := by
  induction chunks with
  | nil =>
    simp only [serializeChunks, List.nil_append]
    exact scanChunks_small g hg
  | cons c rest ih =>
    obtain ⟨cid, cdata⟩ := c
    obtain ⟨hc4, hcsize⟩ := hshape (cid, cdata) (by simp)
    simp only at hc4 hcsize
    have hser : serializeChunks ((cid, cdata) :: rest) ++ g =
        cid ++ toLE4 cdata.length ++ cdata ++
          (if cdata.length % 2 = 1 then [0] else []) ++ (serializeChunks rest ++ g) := by
      simp [serializeChunks, List.append_assoc]
    set s := serializeChunks ((cid, cdata) :: rest) ++ g with hsdef
    have hslen : 8 ≤ s.length := by
      rw [hser]
      simp only [List.length_append, toLE4_length, hc4]
      omega
    have htake4 : s.take 4 = cid := by
      rw [hser, List.append_assoc, List.append_assoc, List.append_assoc,
        List.take_left' hc4]
    have hslice : slice s 4 8 = toLE4 cdata.length := by
      unfold slice
      rw [hser, List.append_assoc, List.append_assoc, List.append_assoc,
        List.drop_left' hc4]
      rw [List.take_append_of_le_length (by simp [toLE4_length])]
      simp [toLE4]
    have hle : leBytes (slice s 4 8) = cdata.length := by
      rw [hslice, leBytes_toLE4]
    have hdrop8 : s.drop 8 = cdata ++
        ((if cdata.length % 2 = 1 then [0] else []) ++ (serializeChunks rest ++ g)) := by
      rw [hser]
      rw [show cid ++ toLE4 cdata.length ++ cdata ++
          (if cdata.length % 2 = 1 then [0] else []) ++ (serializeChunks rest ++ g) =
          (cid ++ toLE4 cdata.length) ++ (cdata ++
            ((if cdata.length % 2 = 1 then [0] else []) ++ (serializeChunks rest ++ g)))
        by simp [List.append_assoc]]
      exact List.drop_left' (by simp [hc4, toLE4_length])
    have hdata : (s.drop 8).take (leBytes (slice s 4 8)) = cdata := by
      rw [hle, hdrop8, List.take_left' rfl]
    have hadv : s.drop (8 + (leBytes (slice s 4 8) + leBytes (slice s 4 8) % 2)) =
        serializeChunks rest ++ g := by
      rw [hle, hser]
      rw [show cid ++ toLE4 cdata.length ++ cdata ++
          (if cdata.length % 2 = 1 then [0] else []) ++ (serializeChunks rest ++ g) =
          (cid ++ toLE4 cdata.length ++ cdata ++
            (if cdata.length % 2 = 1 then [0] else [])) ++ (serializeChunks rest ++ g)
        by simp [List.append_assoc]]
      refine List.drop_left' ?_
      simp only [List.length_append, hc4, toLE4_length, pad_length]
      omega
    rw [scanChunks_step s hslen, htake4, hdata, hadv,
      ih (fun c hc => hshape c (by simp [hc]))]

theorem chunksWF_serialize (chunks : List (List Nat × List Nat))
    (hshape : ∀ c ∈ chunks, (c.1 : List Nat).length = 4 ∧ c.2.length < 4294967296) :
    ChunksWF (serializeChunks chunks) := by
  induction chunks with
  | nil => exact ChunksWF.nil
  | cons c rest ih =>
    obtain ⟨cid, cdata⟩ := c
    obtain ⟨hc4, _⟩ := hshape (cid, cdata) (by simp)
    show ChunksWF (cid ++ toLE4 cdata.length ++ cdata ++
      (if cdata.length % 2 = 1 then [0] else []) ++ serializeChunks rest)
    exact ChunksWF.cons cid (toLE4 cdata.length) cdata _ _ hc4 (toLE4_length _)
      (leBytes_toLE4 _) rfl (ih (fun d hd => hshape d (by simp [hd])))

theorem SubL_drop {α : Type} (x s : List α) (n : Nat) (h : SubL x (s.drop n)) :
    SubL x s := by
  obtain ⟨a, b, hab⟩ := h
  refine ⟨s.take n ++ a, b, ?_⟩
  rw [List.append_assoc, List.append_assoc, ← List.append_assoc a,
    ← hab, List.take_append_drop]

theorem SubL_take {α : Type} (s : List α) (n : Nat) : SubL (s.take n) s :=
  ⟨[], s.drop n, by simp⟩

theorem scanChunksFuel_mem (f : Nat) :
    ∀ (s : List Nat) (c : List Nat × List Nat), c ∈ scanChunksFuel f s →
      c.1.length = 4 ∧ SubL c.1 s ∧ SubL c.2 s := by
  induction f with
  | zero => intro s c hc; simp [scanChunksFuel] at hc
  | succ f ih =>
    intro s c hc
    simp only [scanChunksFuel] at hc
    split at hc
    · simp at hc
    · rename_i hlen
      simp only [List.mem_cons] at hc
      rcases hc with hc | hc
      · subst hc
        refine ⟨?_, SubL_take s 4, ?_⟩
        · simp only [List.length_take]
          omega
        · exact SubL_drop _ s 8 (SubL_take _ _)
      · obtain ⟨h1, h2, h3⟩ := ih _ c hc
        exact ⟨h1, SubL_drop _ s _ h2, SubL_drop _ s _ h3⟩

theorem scanChunks_mem (s : List Nat) (c : List Nat × List Nat)
    (hc : c ∈ scanChunks s) : c.1.length = 4 ∧ SubL c.1 s ∧ SubL c.2 s :=
  scanChunksFuel_mem (s.length + 1) s c hc

/-! ### Embedder inversion lemmas -/

theorem jpeg_embed_wrote (pkt : List Char) (data out : List Nat)
    (h : _embed_xmp_to_jpeg pkt data = .wrote out) :
    data.take 2 = [255, 216] ∧
    (xmpHeaderBytes ++ utf8Encode pkt).length + 2 < 65536 ∧
    out = [255, 216] ++ [255, 225] ++ toBE2 ((xmpHeaderBytes ++ utf8Encode pkt).length + 2)
      ++ (xmpHeaderBytes ++ utf8Encode pkt) ++ stripXmp (data.drop 2) := by
  simp only [_embed_xmp_to_jpeg] at h
  split at h
  · split at h
    · rename_i h1 h2
      simp only [JpegResult.wrote.injEq] at h
      exact ⟨h1, h2, h.symm⟩
    · exact absurd h (by simp)
  · exact absurd h (by simp)

theorem jpeg_embed_wrote_of (pkt : List Char) (data : List Nat)
    (h1 : data.take 2 = [255, 216])
    (h2 : (xmpHeaderBytes ++ utf8Encode pkt).length + 2 < 65536) :
    _embed_xmp_to_jpeg pkt data =
      .wrote ([255, 216] ++ [255, 225] ++ toBE2 ((xmpHeaderBytes ++ utf8Encode pkt).length + 2)
        ++ (xmpHeaderBytes ++ utf8Encode pkt) ++ stripXmp (data.drop 2)) := by
  simp only [_embed_xmp_to_jpeg, if_pos h1, if_pos h2]

theorem webp_embed_wrote (path : WPath) (pkt : List Char) (data out : List Nat)
    (h : _embed_xmp_to_webp path pkt data = .wrote out) :
    data.take 4 = riffTag ∧ slice data 8 12 = webpTag ∧
    (((scanChunks (data.drop 12)).filter (fun c => decide (c.1 ≠ xmpChunkId))
        ++ [(xmpChunkId, utf8Encode pkt)]).all
      (fun c => decide (c.2.length < 4294967296)) = true) ∧
    (webpTag ++ serializeChunks
        ((scanChunks (data.drop 12)).filter (fun c => decide (c.1 ≠ xmpChunkId))
          ++ [(xmpChunkId, utf8Encode pkt)])).length < 4294967296 ∧
    out = riffTag ++ toLE4 (webpTag ++ serializeChunks
        ((scanChunks (data.drop 12)).filter (fun c => decide (c.1 ≠ xmpChunkId))
          ++ [(xmpChunkId, utf8Encode pkt)])).length
      ++ (webpTag ++ serializeChunks
        ((scanChunks (data.drop 12)).filter (fun c => decide (c.1 ≠ xmpChunkId))
          ++ [(xmpChunkId, utf8Encode pkt)])) := by
  simp only [_embed_xmp_to_webp] at h
  split at h
  · rename_i hsig
    split at h
    · rename_i hall
      split at h
      · rename_i hblen
        simp only [WebpResult.wrote.injEq] at h
        exact ⟨hsig.1, hsig.2, hall, hblen, h.symm⟩
      · exact absurd h (by simp)
    · exact absurd h (by simp)
  · exact absurd h (by simp)

theorem webp_embed_wrote_of (path : WPath) (pkt : List Char) (data : List Nat)
    (hsig : data.take 4 = riffTag ∧ slice data 8 12 = webpTag)
    (hall : (((scanChunks (data.drop 12)).filter (fun c => decide (c.1 ≠ xmpChunkId))
        ++ [(xmpChunkId, utf8Encode pkt)]).all
      (fun c => decide (c.2.length < 4294967296)) = true))
    (hblen : (webpTag ++ serializeChunks
        ((scanChunks (data.drop 12)).filter (fun c => decide (c.1 ≠ xmpChunkId))
          ++ [(xmpChunkId, utf8Encode pkt)])).length < 4294967296) :
    _embed_xmp_to_webp path pkt data =
      .wrote (riffTag ++ toLE4 (webpTag ++ serializeChunks
          ((scanChunks (data.drop 12)).filter (fun c => decide (c.1 ≠ xmpChunkId))
            ++ [(xmpChunkId, utf8Encode pkt)])).length
        ++ (webpTag ++ serializeChunks
          ((scanChunks (data.drop 12)).filter (fun c => decide (c.1 ≠ xmpChunkId))
            ++ [(xmpChunkId, utf8Encode pkt)]))) := by
  simp only [_embed_xmp_to_webp, if_pos hsig, hall, if_pos hblen, if_true]

set_option maxRecDepth 40000 in
/-- Sanity check that the split template parts reassemble exactly the
source's literal f-string template (here instantiated at payload `"T"`,
which `esc` leaves unchanged). -/
theorem build_packet_is_template :
    _build_xmp_packet ['T'] =
      ("<?xpacket begin=\"\u00EF\u00BB\u00BF\" id=\"W5M0MpCehiHzreSzNTczkc9d\"?>\n<x:xmpmeta xmlns:x=\"adobe:ns:meta/\">\n  <rdf:RDF xmlns:rdf=\"http://www.w3.org/1999/02/22-rdf-syntax-ns#\">\n    <rdf:Description\n      xmlns:dc=\"http://purl.org/dc/elements/1.1/\">\n      <dc:description>\n        <rdf:Alt>\n          <rdf:li xml:lang=\"x-default\">T</rdf:li>\n        </rdf:Alt>\n      </dc:description>\n      <dc:title>\n        <rdf:Alt>\n          <rdf:li xml:lang=\"x-default\">T</rdf:li>\n        </rdf:Alt>\n      </dc:title>\n    </rdf:Description>\n  </rdf:RDF>\n</x:xmpmeta>\n<?xpacket end=\"w\"?>").data := by
  decide

/-! ### Extraction of the packet's description field -/

theorem esc_no_lt (t : List Char) : ∀ d ∈ esc t, d ≠ '<' := by
  rw [esc_eq_mapEsc]
  exact mapEsc_no_lt t

theorem esc_ne_nil (t : List Char) (h : t ≠ []) : esc t ≠ [] := by
  rw [esc_eq_mapEsc]
  exact mapEsc_ne_nil t h

set_option maxRecDepth 40000 in
theorem extractField_build (t : List Char)
    (hnl : ∀ d ∈ esc t, d ≠ '<') (hne : esc t ≠ []) :
    extractField dcDescOpen dcDescClose (_build_xmp_packet t) = some (esc t) := by
  have hA : splitFirst dcDescOpen (xmpPartA ++ dcDescOpen) = some (xmpPartA, []) := by decide
  have hB : splitFirst rdfLiOpenPat (xmpPartB ++ rdfLiOpenPat) = some (xmpPartB, []) := by
    decide
  have hCsplit : xmpPartC = " xml:lang=\"x-default\"".data ++ ['>'] := by decide
  have hC : splitFirst ['>'] (" xml:lang=\"x-default\"".data ++ ['>']) =
      some (" xml:lang=\"x-default\"".data, []) := by decide
  have hD : splitFirst dcDescClose (xmpPart2a ++ dcDescClose) = some (xmpPart2a, []) := by
    decide
  have hLiClose : rdfLiClose = '<' :: "/rdf:li>".data := by decide
  have e1 : splitFirst dcDescOpen (_build_xmp_packet t) =
      some (xmpPartA, xmpPartB ++ (rdfLiOpenPat ++ (xmpPartC ++
        (esc t ++ (xmpPart2 ++ (esc t ++ xmpPart3)))))) := by
    have hshape : _build_xmp_packet t = xmpPartA ++ (dcDescOpen ++
        (xmpPartB ++ (rdfLiOpenPat ++ (xmpPartC ++
          (esc t ++ (xmpPart2 ++ (esc t ++ xmpPart3))))))) := by
      simp [_build_xmp_packet, xmpPart1, List.append_assoc]
    rw [hshape]
    exact splitFirst_marker dcDescOpen xmpPartA _ hA
  have e2 : splitFirst rdfLiOpenPat (xmpPartB ++ (rdfLiOpenPat ++ (xmpPartC ++
      (esc t ++ (xmpPart2 ++ (esc t ++ xmpPart3)))))) =
      some (xmpPartB, xmpPartC ++ (esc t ++ (xmpPart2 ++ (esc t ++ xmpPart3)))) :=
    splitFirst_marker rdfLiOpenPat xmpPartB _ hB
  have e3 : splitFirst ['>'] (xmpPartC ++ (esc t ++ (xmpPart2 ++ (esc t ++ xmpPart3)))) =
      some (" xml:lang=\"x-default\"".data, esc t ++ (xmpPart2 ++ (esc t ++ xmpPart3))) := by
    rw [hCsplit, List.append_assoc]
    exact splitFirst_marker ['>'] _ _ hC
  have e4 : splitFirst rdfLiClose (esc t ++ (xmpPart2 ++ (esc t ++ xmpPart3))) =
      some (esc t, xmpPart2a ++ (dcDescClose ++ (xmpPart2b ++ (esc t ++ xmpPart3)))) := by
    have hshape : esc t ++ (xmpPart2 ++ (esc t ++ xmpPart3)) =
        esc t ++ (rdfLiClose ++ (xmpPart2a ++ (dcDescClose ++
          (xmpPart2b ++ (esc t ++ xmpPart3))))) := by
      simp [xmpPart2, List.append_assoc]
    rw [hshape, hLiClose]
    exact splitFirst_skip '<' _ (esc t) _ (fun c hc => hnl c hc)
  have e5 : (splitFirst dcDescClose
      (xmpPart2a ++ (dcDescClose ++ (xmpPart2b ++ (esc t ++ xmpPart3))))).isSome = true := by
    rw [splitFirst_marker dcDescClose xmpPart2a _ hD]
    rfl
  simp only [extractField, e1, e2, e3, e4]
  simp only [if_neg hne, e5, if_true]

theorem extract_build (t : List Char) (hne : t ≠ []) :
    extract_xmp_description (_build_xmp_packet t) = htmlUnescape (pyStrip (esc t)) := by
  unfold extract_xmp_description
  rw [extractField_build t (esc_no_lt t) (esc_ne_nil t hne)]

theorem roundtrip_esc (t : List Char)
    (hh : ∀ c, t.head? = some c → isPySpace c = false)
    (hl : ∀ c, t.getLast? = some c → isPySpace c = false) :
    htmlUnescape (pyStrip (esc t)) = t := by
  rw [esc_eq_mapEsc,
    pyStrip_eq_self _ (mapEsc_head_not_space t hh) (mapEsc_getLast_not_space t hl)]
  exact htmlUnescape_mapEsc t

/-! ### Segment-block lemmas -/

theorem stripXmp_seg (L : Nat) (body rest : List Nat)
    (hlen : body.length = L - 2) (hL : 2 ≤ L)
    (hsig : isPrefixL xmpHeaderBytes body = true) :
    stripXmp ([255, 225] ++ toBE2 L ++ body ++ rest) = stripXmp rest := by
  set s := [255, 225] ++ toBE2 L ++ body ++ rest with hs
  have hcons : s = 255 :: 225 :: (toBE2 L ++ (body ++ rest)) := by
    simp [hs, List.append_assoc]
  have h0 : s ≠ [] := by rw [hcons]; simp
  have h1 : s.take 2 = [255, 225] := by rw [hcons]; rfl
  have hlen2 : (s.drop 2).take 2 = toBE2 L := by
    rw [hcons]
    simp only [List.drop_succ_cons, List.drop_zero]
    exact List.take_left' (toBE2_length L)
  have hbe : beBytes ((s.drop 2).take 2) = L := by rw [hlen2, beBytes_toBE2]
  have hbody : (s.drop 4).take (beBytes ((s.drop 2).take 2) - 2) = body := by
    rw [hbe, hcons]
    simp only [List.drop_succ_cons, List.drop_zero]
    rw [show (toBE2 L ++ (body ++ rest)).drop 2 = body ++ rest from
      List.drop_left' (toBE2_length L)]
    rw [← hlen]
    exact List.take_left' rfl
  have hadv : s.drop (2 + L) = rest := by
    rw [hs]
    rw [show [255, 225] ++ toBE2 L ++ body ++ rest =
      ([255, 225] ++ toBE2 L ++ body) ++ rest by simp [List.append_assoc]]
    refine List.drop_left' ?_
    simp [toBE2_length, hlen]
    omega
  rw [stripXmp_step s h0 h1 (by rw [hbody]; exact hsig), hbe, hadv]

theorem countXmpSegs_seg (L : Nat) (body rest : List Nat)
    (hlen : body.length = L - 2) (hL : 2 ≤ L) :
    countXmpSegs ([255, 225] ++ toBE2 L ++ body ++ rest) =
      (if isPrefixL xmpHeaderBytes body = true then 1 else 0) + countXmpSegs rest := by
  set s := [255, 225] ++ toBE2 L ++ body ++ rest with hs
  have hcons : s = 255 :: 225 :: (toBE2 L ++ (body ++ rest)) := by
    simp [hs, List.append_assoc]
  have hslen : 4 ≤ s.length := by
    rw [hcons]
    simp only [List.length_cons, List.length_append, toBE2_length]
    omega
  have h1 : s.take 2 = [255, 225] := by rw [hcons]; rfl
  have hlen2 : (s.drop 2).take 2 = toBE2 L := by
    rw [hcons]
    simp only [List.drop_succ_cons, List.drop_zero]
    exact List.take_left' (toBE2_length L)
  have hbe : beBytes ((s.drop 2).take 2) = L := by rw [hlen2, beBytes_toBE2]
  have hbody : (s.drop 4).take (beBytes ((s.drop 2).take 2) - 2) = body := by
    rw [hbe, hcons]
    simp only [List.drop_succ_cons, List.drop_zero]
    rw [show (toBE2 L ++ (body ++ rest)).drop 2 = body ++ rest from
      List.drop_left' (toBE2_length L)]
    rw [← hlen]
    exact List.take_left' rfl
  have hadv : s.drop (2 + L) = rest := by
    rw [hs]
    rw [show [255, 225] ++ toBE2 L ++ body ++ rest =
      ([255, 225] ++ toBE2 L ++ body) ++ rest by simp [List.append_assoc]]
    refine List.drop_left' ?_
    simp [toBE2_length, hlen]
    omega
  rw [countXmpSegs_step s hslen, h1, hbody, hbe, hadv]
  simp

/-! ### Claim theorems -/

/-- Claim C2: for every input file whose first two bytes differ from the JPEG
start-of-image marker `FF D8`, the JPEG embedder returns failure and performs
no write — the file's bytes are left exactly as they were. -/
theorem claim_C2 (pkt : List Char) (data : List Nat)
    (h : data.take 2 ≠ [255, 216]) :
    _embed_xmp_to_jpeg pkt data = .notJpeg ∧
    jpegFileAfter data (_embed_xmp_to_jpeg pkt data) = data ∧
    jpegReturn (_embed_xmp_to_jpeg pkt data) = false := by
  have he : _embed_xmp_to_jpeg pkt data = .notJpeg := by
    simp only [_embed_xmp_to_jpeg, if_neg h]
  exact ⟨he, by rw [he]; rfl, by rw [he]; rfl⟩

/-- Witness for claim C2 at the concrete non-JPEG file `[0, 0]`. -/
theorem claim_C2_witness :
    ([0, 0] : List Nat).take 2 ≠ [255, 216] ∧
    (_embed_xmp_to_jpeg ['a'] [0, 0] = .notJpeg ∧
     jpegFileAfter [0, 0] (_embed_xmp_to_jpeg ['a'] [0, 0]) = [0, 0] ∧
     jpegReturn (_embed_xmp_to_jpeg ['a'] [0, 0]) = false) :=
  ⟨by decide, claim_C2 ['a'] [0, 0] (by decide)⟩

/-- Claim C10: for every input shorter than 2 bytes (including the empty
file), the JPEG embedder terminates without an error (the model is a total
function, as Python slicing of a short prefix cannot fail), returns failure
and performs no write: the signature comparison on the short prefix evaluates
to a mismatch. -/
theorem claim_C10 (pkt : List Char) (data : List Nat) (h : data.length < 2) :
    _embed_xmp_to_jpeg pkt data = .notJpeg ∧
    jpegFileAfter data (_embed_xmp_to_jpeg pkt data) = data ∧
    jpegReturn (_embed_xmp_to_jpeg pkt data) = false := by
  have hneq : data.take 2 ≠ [255, 216] := by
    intro heq
    have hl : (data.take 2).length = 2 := by rw [heq]; rfl
    rw [List.length_take] at hl
    omega
  exact claim_C2 pkt data hneq

/-- Witness for claim C10 at the empty file. -/
theorem claim_C10_witness :
    ([] : List Nat).length < 2 ∧
    (_embed_xmp_to_jpeg ['a'] [] = .notJpeg ∧
     jpegFileAfter [] (_embed_xmp_to_jpeg ['a'] []) = [] ∧
     jpegReturn (_embed_xmp_to_jpeg ['a'] []) = false) :=
  ⟨by decide, claim_C10 ['a'] [] (by decide)⟩

/-- Claim C3: for every input whose first 4 bytes are not `RIFF` or whose
bytes 8–11 are not `WEBP`, the WebP embedder does not modify the original
file's bytes; it writes the UTF-8 encoded packet document as a sidecar at the
same path with the extension replaced by the reserved `.xmp` extension, and
reports success. -/
theorem claim_C3 (p : WPath) (pkt : List Char) (data : List Nat)
    (h : data.take 4 ≠ riffTag ∨ slice data 8 12 ≠ webpTag) :
    _embed_xmp_to_webp p pkt data =
      .sidecar (withSuffix p xmpSidecarExt) (utf8Encode pkt) ∧
    webpFileAfter data (_embed_xmp_to_webp p pkt data) = data ∧
    webpReturn (_embed_xmp_to_webp p pkt data) = true ∧
    (withSuffix p xmpSidecarExt).stem = p.stem ∧
    (withSuffix p xmpSidecarExt).suffix = xmpSidecarExt := by
  have hneg : ¬(data.take 4 = riffTag ∧ slice data 8 12 = webpTag) := by
    rcases h with h | h
    · exact fun hc => h hc.1
    · exact fun hc => h hc.2
  have he : _embed_xmp_to_webp p pkt data =
      .sidecar (withSuffix p xmpSidecarExt) (utf8Encode pkt) := by
    simp only [_embed_xmp_to_webp, if_neg hneg]
  exact ⟨he, by rw [he]; rfl, by rw [he]; rfl, rfl, rfl⟩

/-- Witness for claim C3 at a concrete 3-byte non-RIFF file. -/
theorem claim_C3_witness :
    (([1, 2, 3] : List Nat).take 4 ≠ riffTag ∨ slice [1, 2, 3] 8 12 ≠ webpTag) ∧
    (_embed_xmp_to_webp ⟨['a'], ['.', 'w', 'e', 'b', 'p']⟩ ['x'] [1, 2, 3] =
        .sidecar (withSuffix ⟨['a'], ['.', 'w', 'e', 'b', 'p']⟩ xmpSidecarExt)
          (utf8Encode ['x']) ∧
     webpFileAfter [1, 2, 3]
        (_embed_xmp_to_webp ⟨['a'], ['.', 'w', 'e', 'b', 'p']⟩ ['x'] [1, 2, 3]) = [1, 2, 3] ∧
     webpReturn (_embed_xmp_to_webp ⟨['a'], ['.', 'w', 'e', 'b', 'p']⟩ ['x'] [1, 2, 3]) = true ∧
     (withSuffix ⟨['a'], ['.', 'w', 'e', 'b', 'p']⟩ xmpSidecarExt).stem = ['a'] ∧
     (withSuffix ⟨['a'], ['.', 'w', 'e', 'b', 'p']⟩ xmpSidecarExt).suffix = xmpSidecarExt) :=
  ⟨Or.inl (by decide), claim_C3 ⟨['a'], ['.', 'w', 'e', 'b', 'p']⟩ ['x'] [1, 2, 3]
    (Or.inl (by decide))⟩

/-- Claim C4: in every file the WebP embedder writes on the valid RIFF/WebP
path, the 4-byte little-endian length at bytes 4–7 equals the number of bytes
after the initial 8-byte header. -/
theorem claim_C4 (p : WPath) (pkt : List Char) (data out : List Nat)
    (h : _embed_xmp_to_webp p pkt data = .wrote out) :
    8 ≤ out.length ∧ leBytes (slice out 4 8) = out.length - 8 := by
  obtain ⟨h1, h2, hall, hblen, h5⟩ := webp_embed_wrote p pkt data out h
  refine ⟨?_, ?_⟩
  · rw [h5]
    simp only [List.length_append, toLE4_length]
    rw [show (riffTag : List Nat).length = 4 from rfl]
    omega
  set body := webpTag ++ serializeChunks
    ((scanChunks (data.drop 12)).filter (fun c => decide (c.1 ≠ xmpChunkId))
      ++ [(xmpChunkId, utf8Encode pkt)]) with hbody
  have hslice : slice out 4 8 = toLE4 body.length := by
    unfold slice
    rw [h5]
    rw [show riffTag ++ toLE4 body.length ++ body =
      riffTag ++ (toLE4 body.length ++ body) by simp [List.append_assoc]]
    rw [List.drop_left' (show (riffTag : List Nat).length = 4 from rfl)]
    rw [List.take_append_of_le_length (by rw [toLE4_length])]
    rw [show (8 : Nat) - 4 = 4 from rfl]
    exact List.take_left' (toLE4_length _)
  rw [hslice, leBytes_toLE4, h5]
  simp only [List.length_append]
  rw [show (riffTag : List Nat).length = 4 from rfl, toLE4_length]
  omega

/-- Witness for claim C4 at a minimal chunkless WebP file. -/
theorem claim_C4_witness :
    _embed_xmp_to_webp ⟨['a'], ['.', 'w', 'e', 'b', 'p']⟩ ['x']
        [82, 73, 70, 70, 4, 0, 0, 0, 87, 69, 66, 80] =
      .wrote (webpOutBytes (_embed_xmp_to_webp ⟨['a'], ['.', 'w', 'e', 'b', 'p']⟩ ['x']
        [82, 73, 70, 70, 4, 0, 0, 0, 87, 69, 66, 80])) ∧
    (8 ≤ (webpOutBytes (_embed_xmp_to_webp ⟨['a'], ['.', 'w', 'e', 'b', 'p']⟩ ['x']
        [82, 73, 70, 70, 4, 0, 0, 0, 87, 69, 66, 80])).length ∧
     leBytes (slice (webpOutBytes (_embed_xmp_to_webp ⟨['a'], ['.', 'w', 'e', 'b', 'p']⟩ ['x']
        [82, 73, 70, 70, 4, 0, 0, 0, 87, 69, 66, 80])) 4 8) =
      (webpOutBytes (_embed_xmp_to_webp ⟨['a'], ['.', 'w', 'e', 'b', 'p']⟩ ['x']
        [82, 73, 70, 70, 4, 0, 0, 0, 87, 69, 66, 80])).length - 8) :=
  ⟨by decide, claim_C4 ⟨['a'], ['.', 'w', 'e', 'b', 'p']⟩ ['x']
    [82, 73, 70, 70, 4, 0, 0, 0, 87, 69, 66, 80] _ (by decide)⟩

/-- Claim C5: every WebP output of the embedder decomposes, from byte offset
12 on, into a well-formed chunk sequence: each chunk's 4-byte little-endian
length field holds exactly the raw payload length, a chunk with odd payload
length is followed by exactly one zero pad byte not counted in the length
field, and a chunk with even payload length has no pad byte. -/
theorem claim_C5 (p : WPath) (pkt : List Char) (data out : List Nat)
    (h : _embed_xmp_to_webp p pkt data = .wrote out) :
    ChunksWF (out.drop 12) := by
  obtain ⟨h1, h2, hall, hblen, h5⟩ := webp_embed_wrote p pkt data out h
  set chunks := (scanChunks (data.drop 12)).filter (fun c => decide (c.1 ≠ xmpChunkId))
    ++ [(xmpChunkId, utf8Encode pkt)] with hchunks
  have hdrop : out.drop 12 = serializeChunks chunks := by
    rw [h5]
    rw [show riffTag ++ toLE4 (webpTag ++ serializeChunks chunks).length ++
        (webpTag ++ serializeChunks chunks) =
      (riffTag ++ toLE4 (webpTag ++ serializeChunks chunks).length ++ webpTag) ++
        serializeChunks chunks by simp [List.append_assoc]]
    exact List.drop_left' (by simp [toLE4_length]; rfl)
  rw [hdrop]
  apply chunksWF_serialize
  intro c hc
  constructor
  · rw [hchunks] at hc
    rcases List.mem_append.mp hc with hc | hc
    · exact (scanChunks_mem _ c (List.mem_filter.mp hc).1).1
    · simp only [List.mem_singleton] at hc
      subst hc
      rfl
  · have := List.all_eq_true.mp hall c hc
    simpa using this

/-- Witness for claim C5 at a minimal chunkless WebP file with a payload of
odd length (so that the pad-byte case is exercised). -/
theorem claim_C5_witness :
    _embed_xmp_to_webp ⟨['a'], ['.', 'w', 'e', 'b', 'p']⟩ ['x']
        [82, 73, 70, 70, 4, 0, 0, 0, 87, 69, 66, 80] =
      .wrote (webpOutBytes (_embed_xmp_to_webp ⟨['a'], ['.', 'w', 'e', 'b', 'p']⟩ ['x']
        [82, 73, 70, 70, 4, 0, 0, 0, 87, 69, 66, 80])) ∧
    ChunksWF ((webpOutBytes (_embed_xmp_to_webp ⟨['a'], ['.', 'w', 'e', 'b', 'p']⟩ ['x']
        [82, 73, 70, 70, 4, 0, 0, 0, 87, 69, 66, 80])).drop 12) :=
  ⟨by decide, claim_C5 ⟨['a'], ['.', 'w', 'e', 'b', 'p']⟩ ['x']
    [82, 73, 70, 70, 4, 0, 0, 0, 87, 69, 66, 80] _ (by decide)⟩

/-- Claim C9: after the PNG embedder runs, the only textual metadata chunk in
the output is the newly written uncompressed chunk under the key
`XML:com.adobe.xmp`; every pre-existing textual chunk of the input, under any
key, is discarded, because the image is re-encoded with a fresh metadata set
containing only the packet.  (PIL's `save`/`PngInfo` semantics are modelled:
saving with an explicit `pnginfo` writes exactly that metadata set.) -/
theorem claim_C9 (img : PngImage) (pkt : List Char) :
    ((_embed_xmp_to_png img pkt).1).textChunks = [⟨xmpPngKey, pkt, false⟩] ∧
    (∀ c ∈ ((_embed_xmp_to_png img pkt).1).textChunks, c.key = xmpPngKey) ∧
    (_embed_xmp_to_png img pkt).2 = true := by
  refine ⟨rfl, ?_, rfl⟩
  intro c hc
  simp only [_embed_xmp_to_png, pilSavePng, pngInfoAddText, List.nil_append,
    List.mem_singleton] at hc
  rw [hc]

/-- Claim C6: the APP1 segment the JPEG embedder constructs sits immediately
after the start-of-image marker and consists of the marker bytes `FF E1`, a
2-byte big-endian length equal to signature length (29) plus UTF-8 packet
byte length plus 2 (the segment body length plus 2), the null-terminated
signature, and the UTF-8-encoded packet, followed by the remainder of the
original file. -/
theorem claim_C6 (pkt : List Char) (data out : List Nat)
    (h : _embed_xmp_to_jpeg pkt data = .wrote out) :
    slice out 0 2 = [255, 216] ∧
    slice out 2 4 = [255, 225] ∧
    beBytes (slice out 4 6) = xmpHeaderBytes.length + (utf8Encode pkt).length + 2 ∧
    xmpHeaderBytes.length = 29 ∧
    slice out 6 35 = xmpHeaderBytes ∧
    slice out 35 (35 + (utf8Encode pkt).length) = utf8Encode pkt ∧
    out.drop (35 + (utf8Encode pkt).length) = stripXmp (data.drop 2) := by
  obtain ⟨h1, h2, h3⟩ := jpeg_embed_wrote pkt data out h
  have hsig29 : (xmpHeaderBytes : List Nat).length = 29 := by decide
  set L := (xmpHeaderBytes ++ utf8Encode pkt).length + 2 with hL
  set rest := stripXmp (data.drop 2) with hrest
  have hL6 : ([255, 216] ++ [255, 225] ++ toBE2 L : List Nat).length = 6 := by
    simp [toBE2_length]
  have hC0 : slice out 0 2 = [255, 216] := by
    unfold slice
    rw [h3]
    simp only [List.drop_zero]
    rw [show [255, 216] ++ [255, 225] ++ toBE2 L ++ (xmpHeaderBytes ++ utf8Encode pkt)
        ++ rest = [255, 216] ++ ([255, 225] ++ toBE2 L ++ (xmpHeaderBytes ++ utf8Encode pkt)
        ++ rest) by simp [List.append_assoc]]
    rw [show (2 : Nat) - 0 = 2 from rfl]
    exact List.take_left' rfl
  have hC2 : slice out 2 4 = [255, 225] := by
    unfold slice
    rw [h3]
    rw [show [255, 216] ++ [255, 225] ++ toBE2 L ++ (xmpHeaderBytes ++ utf8Encode pkt)
        ++ rest = [255, 216] ++ ([255, 225] ++ (toBE2 L ++ ((xmpHeaderBytes ++ utf8Encode pkt)
        ++ rest))) by simp [List.append_assoc]]
    rw [List.drop_left' (show ([255, 216] : List Nat).length = 2 from rfl)]
    rw [show (4 : Nat) - 2 = 2 from rfl]
    exact List.take_left' rfl
  have hC4 : slice out 4 6 = toBE2 L := by
    unfold slice
    rw [h3]
    rw [show [255, 216] ++ [255, 225] ++ toBE2 L ++ (xmpHeaderBytes ++ utf8Encode pkt)
        ++ rest = ([255, 216] ++ [255, 225]) ++ (toBE2 L ++ ((xmpHeaderBytes ++
        utf8Encode pkt) ++ rest)) by simp [List.append_assoc]]
    rw [List.drop_left' (show ([255, 216] ++ [255, 225] : List Nat).length = 4 from rfl)]
    rw [show (6 : Nat) - 4 = 2 from rfl]
    exact List.take_left' (toBE2_length L)
  have hC6 : slice out 6 35 = xmpHeaderBytes := by
    unfold slice
    rw [h3]
    rw [show [255, 216] ++ [255, 225] ++ toBE2 L ++ (xmpHeaderBytes ++ utf8Encode pkt)
        ++ rest = ([255, 216] ++ [255, 225] ++ toBE2 L) ++ (xmpHeaderBytes ++
        (utf8Encode pkt ++ rest)) by simp [List.append_assoc]]
    rw [List.drop_left' hL6]
    rw [show (35 : Nat) - 6 = 29 from rfl]
    exact List.take_left' hsig29
  have hC35 : slice out 35 (35 + (utf8Encode pkt).length) = utf8Encode pkt := by
    unfold slice
    rw [h3]
    rw [show [255, 216] ++ [255, 225] ++ toBE2 L ++ (xmpHeaderBytes ++ utf8Encode pkt)
        ++ rest = ([255, 216] ++ [255, 225] ++ toBE2 L ++ xmpHeaderBytes) ++
        (utf8Encode pkt ++ rest) by simp [List.append_assoc]]
    rw [List.drop_left' (by simp [toBE2_length, hsig29] : ([255, 216] ++ [255, 225] ++
      toBE2 L ++ xmpHeaderBytes : List Nat).length = 35)]
    rw [show 35 + (utf8Encode pkt).length - 35 = (utf8Encode pkt).length by omega]
    exact List.take_left' rfl
  have hCdrop : out.drop (35 + (utf8Encode pkt).length) = rest := by
    rw [h3]
    rw [show [255, 216] ++ [255, 225] ++ toBE2 L ++ (xmpHeaderBytes ++ utf8Encode pkt)
        ++ rest = ([255, 216] ++ [255, 225] ++ toBE2 L ++ (xmpHeaderBytes ++
        utf8Encode pkt)) ++ rest by simp [List.append_assoc]]
    exact List.drop_left' (by simp [toBE2_length, hsig29]; omega)
  have hbe : beBytes (slice out 4 6) = xmpHeaderBytes.length + (utf8Encode pkt).length + 2 := by
    rw [hC4, beBytes_toBE2, hL]
    simp
  exact ⟨hC0, hC2, hbe, hsig29, hC6, hC35, hCdrop⟩

/-- Witness for claim C6 at the minimal JPEG `FF D8` with packet `"x"`. -/
theorem claim_C6_witness :
    _embed_xmp_to_jpeg ['x'] [255, 216] =
      .wrote (jpegOutBytes (_embed_xmp_to_jpeg ['x'] [255, 216])) ∧
    (slice (jpegOutBytes (_embed_xmp_to_jpeg ['x'] [255, 216])) 0 2 = [255, 216] ∧
     slice (jpegOutBytes (_embed_xmp_to_jpeg ['x'] [255, 216])) 2 4 = [255, 225] ∧
     beBytes (slice (jpegOutBytes (_embed_xmp_to_jpeg ['x'] [255, 216])) 4 6) =
       xmpHeaderBytes.length + (utf8Encode ['x']).length + 2 ∧
     xmpHeaderBytes.length = 29 ∧
     slice (jpegOutBytes (_embed_xmp_to_jpeg ['x'] [255, 216])) 6 35 = xmpHeaderBytes ∧
     slice (jpegOutBytes (_embed_xmp_to_jpeg ['x'] [255, 216])) 35
       (35 + (utf8Encode ['x']).length) = utf8Encode ['x'] ∧
     (jpegOutBytes (_embed_xmp_to_jpeg ['x'] [255, 216])).drop
       (35 + (utf8Encode ['x']).length) = stripXmp (([255, 216] : List Nat).drop 2)) := by
  refine ⟨by decide, ?_⟩
  have h : _embed_xmp_to_jpeg ['x'] [255, 216] =
      .wrote (jpegOutBytes (_embed_xmp_to_jpeg ['x'] [255, 216])) := by decide
  exact claim_C6 ['x'] [255, 216] _ h

/-- Claim C7 (amended): for every payload text containing `<`, `>`, `&` or
`"` whose first and last characters are not whitespace, those characters
appear in the field content only in XML-escaped form (no raw `<`, `>`, `"`,
and every `&` starts one of `&amp;` `&lt;` `&gt;` `&quot;`), and extracting
the description field back and unescaping yields the original payload
unchanged.  (The whitespace restriction is forced by the extractor's
`strip()`, which removes leading/trailing whitespace of the recovered text —
see the counterexample.) -/
theorem claim_C7_amended (t : List Char)
    (hsp : t.any (fun c => c = '<' || c = '>' || c = '&' || c = '"') = true)
    (hh : ∀ c, t.head? = some c → isPySpace c = false)
    (hl : ∀ c, t.getLast? = some c → isPySpace c = false) :
    escapedForm (esc t) = true ∧
    extract_xmp_description (_build_xmp_packet t) = t := by
  have hne : t ≠ [] := by
    intro hx
    rw [hx] at hsp
    simp at hsp
  refine ⟨?_, ?_⟩
  · rw [esc_eq_mapEsc]
    exact escapedForm_mapEsc t
  · rw [extract_build t hne]
    exact roundtrip_esc t hh hl

/-- Counterexample to claim C7 as stated: the payload `" <"` contains `<`,
but the extractor's `strip()` drops the leading space, so the recovered text
is `"<"`, not the original payload. -/
theorem claim_C7_counterexample :
    ([' ', '<'] : List Char).any (fun c => c = '<' || c = '>' || c = '&' || c = '"') = true ∧
    extract_xmp_description (_build_xmp_packet [' ', '<']) ≠ [' ', '<'] := by
  constructor
  · decide
  · rw [extract_build [' ', '<'] (by decide)]
    decide

/-- Witness for claim C7 (amended) at the concrete payload `"<"`. -/
theorem claim_C7_witness :
    (['<'] : List Char).any (fun c => c = '<' || c = '>' || c = '&' || c = '"') = true ∧
    (∀ c, (['<'] : List Char).head? = some c → isPySpace c = false) ∧
    (∀ c, (['<'] : List Char).getLast? = some c → isPySpace c = false) ∧
    (escapedForm (esc ['<']) = true ∧
     extract_xmp_description (_build_xmp_packet ['<']) = ['<']) := by
  have hh : ∀ c, (['<'] : List Char).head? = some c → isPySpace c = false := by
    intro c hc
    simp only [List.head?_cons, Option.some.injEq] at hc
    rw [← hc]
    decide
  have hl : ∀ c, (['<'] : List Char).getLast? = some c → isPySpace c = false := by
    intro c hc
    simp only [List.getLast?] at hc
    simp only [Option.some.injEq] at hc
    rw [← hc]
    decide
  exact ⟨by decide, hh, hl, claim_C7_amended ['<'] (by decide) hh hl⟩

/-! ### Idempotence helper lemmas -/

theorem jpeg_embed_idem (pkt : List Char) (data out : List Nat)
    (h : _embed_xmp_to_jpeg pkt data = .wrote out) :
    _embed_xmp_to_jpeg pkt out = .wrote out ∧
    countXmpSegs (out.drop 2) = 1 + countXmpSegs (stripXmp (data.drop 2)) := by
  obtain ⟨h1, h2, h3⟩ := jpeg_embed_wrote pkt data out h
  have hlenbody : (xmpHeaderBytes ++ utf8Encode pkt).length =
      (xmpHeaderBytes ++ utf8Encode pkt).length + 2 - 2 := by omega
  have hL2 : 2 ≤ (xmpHeaderBytes ++ utf8Encode pkt).length + 2 := by omega
  have hsig : isPrefixL xmpHeaderBytes (xmpHeaderBytes ++ utf8Encode pkt) = true :=
    isPrefixL_append_self _ _
  have hdrop2 : out.drop 2 = [255, 225] ++
      toBE2 ((xmpHeaderBytes ++ utf8Encode pkt).length + 2) ++
      (xmpHeaderBytes ++ utf8Encode pkt) ++ stripXmp (data.drop 2) := by
    rw [h3]
    rw [show ([255, 216] : List Nat) ++ [255, 225] ++
        toBE2 ((xmpHeaderBytes ++ utf8Encode pkt).length + 2) ++
        (xmpHeaderBytes ++ utf8Encode pkt) ++ stripXmp (data.drop 2) =
      [255, 216] ++ ([255, 225] ++
        toBE2 ((xmpHeaderBytes ++ utf8Encode pkt).length + 2) ++
        (xmpHeaderBytes ++ utf8Encode pkt) ++ stripXmp (data.drop 2))
      by simp [List.append_assoc]]
    exact List.drop_left' rfl
  constructor
  · have htake : out.take 2 = [255, 216] := by
      rw [h3]
      rw [show ([255, 216] : List Nat) ++ [255, 225] ++
          toBE2 ((xmpHeaderBytes ++ utf8Encode pkt).length + 2) ++
          (xmpHeaderBytes ++ utf8Encode pkt) ++ stripXmp (data.drop 2) =
        [255, 216] ++ ([255, 225] ++
          toBE2 ((xmpHeaderBytes ++ utf8Encode pkt).length + 2) ++
          (xmpHeaderBytes ++ utf8Encode pkt) ++ stripXmp (data.drop 2))
        by simp [List.append_assoc]]
      exact List.take_left' rfl
    have hstrip : stripXmp (out.drop 2) = stripXmp (data.drop 2) := by
      rw [hdrop2, stripXmp_seg _ _ _ hlenbody hL2 hsig]
      exact stripXmp_idem (data.drop 2)
    have hfin := jpeg_embed_wrote_of pkt out htake h2
    rw [hstrip] at hfin
    rw [hfin, ← h3]
  · rw [hdrop2, countXmpSegs_seg _ _ _ hlenbody hL2, if_pos hsig]

theorem webp_embed_idem (p : WPath) (pkt : List Char) (data out : List Nat)
    (h : _embed_xmp_to_webp p pkt data = .wrote out) :
    _embed_xmp_to_webp p pkt out = .wrote out ∧ countXmpChunks out = 1 := by
  obtain ⟨h1, h2, hall, hblen, h5⟩ := webp_embed_wrote p pkt data out h
  set chunks := (scanChunks (data.drop 12)).filter (fun c => decide (c.1 ≠ xmpChunkId))
    ++ [(xmpChunkId, utf8Encode pkt)] with hchunksdef
  have hshape : ∀ c ∈ chunks, (c.1 : List Nat).length = 4 ∧ c.2.length < 4294967296 := by
    intro c hc
    constructor
    · rw [hchunksdef] at hc
      rcases List.mem_append.mp hc with hc2 | hc2
      · exact (scanChunks_mem _ c (List.mem_filter.mp hc2).1).1
      · simp only [List.mem_singleton] at hc2
        subst hc2
        rfl
    · simpa using List.all_eq_true.mp hall c hc
  have hdrop12 : out.drop 12 = serializeChunks chunks := by
    rw [h5]
    rw [show (riffTag : List Nat) ++ toLE4 (webpTag ++ serializeChunks chunks).length ++
        (webpTag ++ serializeChunks chunks) =
      (riffTag ++ toLE4 (webpTag ++ serializeChunks chunks).length ++ webpTag) ++
        serializeChunks chunks by simp [List.append_assoc]]
    exact List.drop_left' (by simp [toLE4_length]; rfl)
  have hscan : scanChunks (out.drop 12) = chunks := by
    have hrt := scanChunks_serialize chunks [] hshape (by simp)
    rw [List.append_nil] at hrt
    rw [hdrop12]
    exact hrt
  have hsingle : ([(xmpChunkId, utf8Encode pkt)] : List (List Nat × List Nat)).filter
      (fun c => decide (c.1 ≠ xmpChunkId)) = [] := by
    simp [List.filter]
  have hfilterEq : chunks.filter (fun c => decide (c.1 ≠ xmpChunkId))
      ++ [(xmpChunkId, utf8Encode pkt)] = chunks := by
    conv_lhs => rw [hchunksdef]
    rw [List.filter_append, hsingle, List.append_nil]
    rw [List.filter_filter]
    simp only [Bool.and_self]
  have hchunks2 : (scanChunks (out.drop 12)).filter (fun c => decide (c.1 ≠ xmpChunkId))
      ++ [(xmpChunkId, utf8Encode pkt)] = chunks := by
    rw [hscan, hfilterEq]
  have htake : out.take 4 = riffTag := by
    rw [h5]
    rw [show (riffTag : List Nat) ++ toLE4 (webpTag ++ serializeChunks chunks).length ++
        (webpTag ++ serializeChunks chunks) =
      riffTag ++ (toLE4 (webpTag ++ serializeChunks chunks).length ++
        (webpTag ++ serializeChunks chunks)) by simp [List.append_assoc]]
    exact List.take_left' rfl
  have hslice : slice out 8 12 = webpTag := by
    unfold slice
    rw [h5]
    rw [show (riffTag : List Nat) ++ toLE4 (webpTag ++ serializeChunks chunks).length ++
        (webpTag ++ serializeChunks chunks) =
      (riffTag ++ toLE4 (webpTag ++ serializeChunks chunks).length) ++
        (webpTag ++ serializeChunks chunks) by simp [List.append_assoc]]
    rw [List.drop_left' (by simp [toLE4_length]; rfl)]
    rw [show (12 : Nat) - 8 = 4 from rfl]
    exact List.take_left' rfl
  constructor
  · have hall2 : ((scanChunks (out.drop 12)).filter (fun c => decide (c.1 ≠ xmpChunkId))
        ++ [(xmpChunkId, utf8Encode pkt)]).all
          (fun c => decide (c.2.length < 4294967296)) = true := by
      rw [hchunks2]
      exact hall
    have hblen2 : (webpTag ++ serializeChunks
        ((scanChunks (out.drop 12)).filter (fun c => decide (c.1 ≠ xmpChunkId))
          ++ [(xmpChunkId, utf8Encode pkt)])).length < 4294967296 := by
      rw [hchunks2]
      exact hblen
    have hfin := webp_embed_wrote_of p pkt out ⟨htake, hslice⟩ hall2 hblen2
    rw [hchunks2] at hfin
    rw [hfin, ← h5]
  · unfold countXmpChunks
    rw [hscan, hchunksdef]
    rw [List.countP_append]
    have hkept : ((scanChunks (data.drop 12)).filter
        (fun c => decide (c.1 ≠ xmpChunkId))).countP
          (fun c => decide (c.1 = xmpChunkId)) = 0 := by
      rw [List.countP_eq_zero]
      intro c hc
      have := (List.mem_filter.mp hc).2
      simpa using this
    rw [hkept]
    rfl

/-- Claim C1 (amended): embedding twice with the same text writes bytes
identical to embedding once, for JPEG and WebP alike.  For WebP the output
contains exactly one `XMP ` chunk.  For JPEG the new segment contributes
exactly one XMP APP1 segment at the front, but a pre-existing XMP APP1
segment located beyond the first non-XMP segment is preserved in the kept
remainder, so the whole-file segment count is `1` plus the count remaining in
that preserved remainder (the count is `1` exactly when the remainder
contains no XMP APP1 segment) — see the counterexample for a file where the
total is 2. -/
theorem claim_C1_amended :
    (∀ (t : List Char) (data out : List Nat),
      embedJpegWithText t data = .wrote out →
        embedJpegWithText t out = .wrote out ∧
        countXmpSegs (out.drop 2) =
          1 + countXmpSegs (stripXmp (data.drop 2))) ∧
    (∀ (p : WPath) (t : List Char) (data out : List Nat),
      embedWebpWithText p t data = .wrote out →
        embedWebpWithText p t out = .wrote out ∧
        countXmpChunks out = 1) := by
  constructor
  · intro t data out h
    exact jpeg_embed_idem (_build_xmp_packet t) data out h
  · intro p t data out h
    exact webp_embed_idem p (_build_xmp_packet t) data out h

set_option maxRecDepth 100000 in
/-- Counterexample to claim C1 as stated: a JPEG whose XMP APP1 segment sits
after an APP0 segment.  The leading scan stops at the APP0 segment, so the
old XMP segment survives; after embedding twice the file holds two XMP APP1
segments, not exactly one. -/
theorem claim_C1_counterexample :
    countXmpSegs ((jpegOutBytes (embedJpegWithText ['a']
      (jpegOutBytes (embedJpegWithText ['a']
        ([255, 216, 255, 224, 0, 3, 65, 255, 225, 0, 31] ++ xmpHeaderBytes))))).drop 2) ≠ 1 := by
  decide

set_option maxRecDepth 100000 in
/-- Witness for claim C1 (amended): the JPEG half at the minimal JPEG
`FF D8`, the WebP half at a minimal chunkless RIFF/WebP container. -/
theorem claim_C1_witness :
    (embedJpegWithText ['a'] [255, 216] =
        .wrote (jpegOutBytes (embedJpegWithText ['a'] [255, 216])) ∧
      (embedJpegWithText ['a'] (jpegOutBytes (embedJpegWithText ['a'] [255, 216])) =
          .wrote (jpegOutBytes (embedJpegWithText ['a'] [255, 216])) ∧
        countXmpSegs ((jpegOutBytes (embedJpegWithText ['a'] [255, 216])).drop 2) =
          1 + countXmpSegs (stripXmp (([255, 216] : List Nat).drop 2)))) ∧
    (embedWebpWithText ⟨['a'], ['.', 'w', 'e', 'b', 'p']⟩ ['a']
        [82, 73, 70, 70, 4, 0, 0, 0, 87, 69, 66, 80] =
        .wrote (webpOutBytes (embedWebpWithText ⟨['a'], ['.', 'w', 'e', 'b', 'p']⟩ ['a']
          [82, 73, 70, 70, 4, 0, 0, 0, 87, 69, 66, 80])) ∧
      (embedWebpWithText ⟨['a'], ['.', 'w', 'e', 'b', 'p']⟩ ['a']
          (webpOutBytes (embedWebpWithText ⟨['a'], ['.', 'w', 'e', 'b', 'p']⟩ ['a']
            [82, 73, 70, 70, 4, 0, 0, 0, 87, 69, 66, 80])) =
          .wrote (webpOutBytes (embedWebpWithText ⟨['a'], ['.', 'w', 'e', 'b', 'p']⟩ ['a']
            [82, 73, 70, 70, 4, 0, 0, 0, 87, 69, 66, 80])) ∧
        countXmpChunks (webpOutBytes (embedWebpWithText ⟨['a'], ['.', 'w', 'e', 'b', 'p']⟩ ['a']
          [82, 73, 70, 70, 4, 0, 0, 0, 87, 69, 66, 80])) = 1)) := by
  constructor
  · have h : embedJpegWithText ['a'] [255, 216] =
        .wrote (jpegOutBytes (embedJpegWithText ['a'] [255, 216])) := by decide
    exact ⟨h, claim_C1_amended.1 ['a'] [255, 216] _ h⟩
  · have h : embedWebpWithText ⟨['a'], ['.', 'w', 'e', 'b', 'p']⟩ ['a']
        [82, 73, 70, 70, 4, 0, 0, 0, 87, 69, 66, 80] =
        .wrote (webpOutBytes (embedWebpWithText ⟨['a'], ['.', 'w', 'e', 'b', 'p']⟩ ['a']
          [82, 73, 70, 70, 4, 0, 0, 0, 87, 69, 66, 80])) := by decide
    exact ⟨h, claim_C1_amended.2 ⟨['a'], ['.', 'w', 'e', 'b', 'p']⟩ ['a']
      [82, 73, 70, 70, 4, 0, 0, 0, 87, 69, 66, 80] _ h⟩

/-- Claim C8 (amended): the chunk scan is bounds-safe — it terminates (it is
a total function) and every chunk identifier and payload it extracts is a
contiguous substring of the input buffer, so no byte outside the buffer is
ever read.  But on truncated or malformed input the embedder neither fails
nor preserves the unparsed bytes: a trailing fragment shorter than a full
8-byte chunk header is silently dropped, and the rewrite succeeds without it
(appending such a fragment to the chunk area leaves the embedder's output
unchanged) — see the counterexample. -/
theorem claim_C8_amended :
    (∀ (s : List Nat) (c : List Nat × List Nat), c ∈ scanChunks s →
        SubL c.1 s ∧ SubL c.2 s) ∧
    (∀ (p : WPath) (pkt : List Char) (lb : List Nat)
        (chunks : List (List Nat × List Nat)) (g : List Nat),
      lb.length = 4 →
      (∀ c ∈ chunks, (c.1 : List Nat).length = 4 ∧ c.2.length < 4294967296) →
      g.length < 8 →
      _embed_xmp_to_webp p pkt (riffTag ++ lb ++ webpTag ++ serializeChunks chunks ++ g) =
        _embed_xmp_to_webp p pkt (riffTag ++ lb ++ webpTag ++ serializeChunks chunks)) := by
  constructor
  · intro s c hc
    exact ⟨(scanChunks_mem s c hc).2.1, (scanChunks_mem s c hc).2.2⟩
  · intro p pkt lb chunks g hlb hsh hg
    have htake1 : (riffTag ++ lb ++ webpTag ++ serializeChunks chunks ++ g).take 4 =
        riffTag := by
      rw [show riffTag ++ lb ++ webpTag ++ serializeChunks chunks ++ g =
        riffTag ++ (lb ++ (webpTag ++ (serializeChunks chunks ++ g)))
        by simp [List.append_assoc]]
      exact List.take_left' rfl
    have htake2 : (riffTag ++ lb ++ webpTag ++ serializeChunks chunks).take 4 = riffTag := by
      rw [show riffTag ++ lb ++ webpTag ++ serializeChunks chunks =
        riffTag ++ (lb ++ (webpTag ++ serializeChunks chunks)) by simp [List.append_assoc]]
      exact List.take_left' rfl
    have hslice1 : slice (riffTag ++ lb ++ webpTag ++ serializeChunks chunks ++ g) 8 12 =
        webpTag := by
      unfold slice
      rw [show riffTag ++ lb ++ webpTag ++ serializeChunks chunks ++ g =
        (riffTag ++ lb) ++ (webpTag ++ (serializeChunks chunks ++ g))
        by simp [List.append_assoc]]
      rw [List.drop_left' (by simp [hlb]; rfl)]
      rw [show (12 : Nat) - 8 = 4 from rfl]
      exact List.take_left' rfl
    have hslice2 : slice (riffTag ++ lb ++ webpTag ++ serializeChunks chunks) 8 12 =
        webpTag := by
      unfold slice
      rw [show riffTag ++ lb ++ webpTag ++ serializeChunks chunks =
        (riffTag ++ lb) ++ (webpTag ++ serializeChunks chunks) by simp [List.append_assoc]]
      rw [List.drop_left' (by simp [hlb]; rfl)]
      rw [show (12 : Nat) - 8 = 4 from rfl]
      exact List.take_left' rfl
    have hdrop1 : (riffTag ++ lb ++ webpTag ++ serializeChunks chunks ++ g).drop 12 =
        serializeChunks chunks ++ g := by
      rw [show riffTag ++ lb ++ webpTag ++ serializeChunks chunks ++ g =
        (riffTag ++ lb ++ webpTag) ++ (serializeChunks chunks ++ g)
        by simp [List.append_assoc]]
      exact List.drop_left' (by simp [hlb]; rfl)
    have hdrop2 : (riffTag ++ lb ++ webpTag ++ serializeChunks chunks).drop 12 =
        serializeChunks chunks := by
      rw [show riffTag ++ lb ++ webpTag ++ serializeChunks chunks =
        (riffTag ++ lb ++ webpTag) ++ serializeChunks chunks by simp [List.append_assoc]]
      exact List.drop_left' (by simp [hlb]; rfl)
    have hscanrt1 : scanChunks (serializeChunks chunks ++ g) = chunks :=
      scanChunks_serialize chunks g hsh hg
    have hscanrt2 : scanChunks (serializeChunks chunks) = chunks := by
      have h0 := scanChunks_serialize chunks [] hsh (by simp)
      rwa [List.append_nil] at h0
    simp only [_embed_xmp_to_webp, htake1, htake2, hslice1, hslice2, hdrop1, hdrop2,
      hscanrt1, hscanrt2]

set_option maxRecDepth 100000 in
/-- Counterexample to the "fail or preserve" reading of claim C8: a valid
RIFF/WebP header followed by 7 trailing garbage bytes (too short to be a
chunk header).  The embedder succeeds (writes the file) and the garbage bytes
occur nowhere in the output — they are neither preserved verbatim nor did the
operation fail. -/
theorem claim_C8_counterexample :
    isWrote (_embed_xmp_to_webp ⟨['a'], ['.', 'w', 'e', 'b', 'p']⟩ (_build_xmp_packet ['a'])
      [82, 73, 70, 70, 19, 0, 0, 0, 87, 69, 66, 80, 1, 2, 3, 4, 5, 6, 7]) = true ∧
    isSubL [1, 2, 3, 4, 5, 6, 7]
      (webpOutBytes (_embed_xmp_to_webp ⟨['a'], ['.', 'w', 'e', 'b', 'p']⟩
        (_build_xmp_packet ['a'])
        [82, 73, 70, 70, 19, 0, 0, 0, 87, 69, 66, 80, 1, 2, 3, 4, 5, 6, 7])) = false := by
  constructor
  · decide
  · decide

/-- Witness for claim C8 (amended): the substring property at a one-chunk
buffer, and the garbage-dropping property at a one-chunk body with a 1-byte
payload and 7 trailing garbage bytes. -/
theorem claim_C8_witness :
    ((([65, 66, 67, 68] : List Nat), ([9] : List Nat)) ∈
        scanChunks [65, 66, 67, 68, 1, 0, 0, 0, 9, 0] ∧
      (SubL [65, 66, 67, 68] [65, 66, 67, 68, 1, 0, 0, 0, 9, 0] ∧
       SubL [9] [65, 66, 67, 68, 1, 0, 0, 0, 9, 0])) ∧
    (([0, 0, 0, 0] : List Nat).length = 4 ∧
      (∀ c ∈ [(([65, 66, 67, 68] : List Nat), ([9] : List Nat))],
        (c.1).length = 4 ∧ c.2.length < 4294967296) ∧
      ([7] : List Nat).length < 8 ∧
      _embed_xmp_to_webp ⟨['a'], ['.', 'w', 'e', 'b', 'p']⟩ ['x']
          (riffTag ++ [0, 0, 0, 0] ++ webpTag ++
            serializeChunks [([65, 66, 67, 68], [9])] ++ [7]) =
        _embed_xmp_to_webp ⟨['a'], ['.', 'w', 'e', 'b', 'p']⟩ ['x']
          (riffTag ++ [0, 0, 0, 0] ++ webpTag ++
            serializeChunks [([65, 66, 67, 68], [9])])) := by
  have hmem : (([65, 66, 67, 68] : List Nat), ([9] : List Nat)) ∈
      scanChunks [65, 66, 67, 68, 1, 0, 0, 0, 9, 0] := by decide
  exact ⟨⟨hmem, claim_C8_amended.1 _ _ hmem⟩, by decide, by decide, by decide,
    claim_C8_amended.2 ⟨['a'], ['.', 'w', 'e', 'b', 'p']⟩ ['x'] [0, 0, 0, 0]
      [([65, 66, 67, 68], [9])] [7] (by decide) (by decide) (by decide)⟩

end Danbooru
